import Mathlib

/-!
# xLayoutDisplays: the display model and the layout algorithms of `src/Displ.cpp`

A shallow embedding of `Displ.cpp`.

* A `shared_ptr<Mode>` is an `Option Mode`: `none` is the null pointer, and a `Mode` value
  carries the address it is held at, so that equality of these values is the pointer
  equality `std::find` uses. A `list<shared_ptr<Mode>>` is a `List (Option Mode)`: it may
  hold null pointers.
* Code that dereferences a `shared_ptr<Mode>` returns a `Run`: `undefined` when the pointer
  dereferenced is null.
* An `int` is an integer kept in the 32-bit range by `wrapInt`.
* A `shared_ptr<Displ>` is a `Ptr` into a `Heap`; a `list<shared_ptr<Displ>>` is a
  `List Ptr`, so the same display may occur twice in a list and every write through a
  pointer is seen through its other occurrences.
* The two static members `Displ::desiredPrimary` and `Displ::desiredDpi` live in `World`.
* A function that may throw returns an `Outcome`: the state it leaves behind and, when it
  threw, the exception.
-/

set_option autoImplicit false

namespace XLayoutDisplays

/-! ## Data model -/

/-- Modelled from the spec: `class Mode`, declared in `Mode.h`. The pointee of a non-null
`shared_ptr<Mode>` together with the address held; `Displ.cpp` reads `width` and `height`,
the ranking also reads `refresh`. -/
structure Mode where
  addr : Nat
  width : Nat
  height : Nat
  refresh : Nat
  deriving DecidableEq

/-- Modelled from the spec: `class Pos`, declared in `Pos.h`, the integer coordinate
`Pos(x, y)`. -/
structure Pos where
  x : Int
  y : Int
  deriving DecidableEq

/-- Modelled from the spec: `class Edid`, declared in `Edid.h`. The handle of a display's
EDID record; its contents are read only through `dpiForMode`, which the DPI derivation
takes as a parameter. -/
structure Edid where
  addr : Nat
  deriving DecidableEq

/-- Modelled from the spec: the enumeration `Displ::State`, declared in `Displ.h`;
`Displ.cpp` names `active` and `connected`, the spec names the third state. -/
inductive State where
  | active
  | connected
  | disconnected
  deriving DecidableEq

/-- The two exception classes thrown in `Displ.cpp`, with their `what()` text. -/
inductive Exn where
  | invalid_argument (what : String)
  | runtime_error (what : String)
  deriving DecidableEq

/-- The result of running a function that mutates state of type `σ` and may throw: the
state is kept in both cases, since writes made before a throw are not undone. -/
inductive Outcome (σ : Type) where
  | returned (s : σ)
  | threw (e : Exn) (s : σ)

/-- The state a call leaves behind. -/
def Outcome.state {σ : Type} : Outcome σ → σ
  | .returned s => s
  | .threw _ s => s

/-- The exception a call threw, `none` when it returned normally. -/
def Outcome.thrown {σ : Type} : Outcome σ → Option Exn
  | .returned _ => none
  | .threw e _ => some e

/-- The result of code that dereferences pointers: `undefined` when a null pointer is
dereferenced, the behaviour of the program being undefined from there on. -/
inductive Run (α : Type) where
  | defined (a : α)
  | undefined

/-- The value of a run whose behaviour is defined. -/
def Run.result {α : Type} : Run α → Option α
  | .defined a => some a
  | .undefined => none

/-- The 32-bit two's complement value an `int` holds after receiving the integer `z`. -/
def wrapInt (z : Int) : Int :=
  (z + 2147483648) % 4294967296 - 2147483648

/-- Modelled from the spec: the members of `class Displ`, declared in `Displ.h`: the ones
the constructor initialises, which nothing in `Displ.cpp` writes afterwards, and the three
the layout writes (`_desiredActive`, `_desiredMode`, `desiredPos`). -/
structure Displ where
  name : String
  state : State
  modes : List (Option Mode)
  currentMode : Option Mode
  preferredMode : Option Mode
  optimalMode : Option Mode
  currentPos : Option Pos
  edid : Option Edid
  desiredActive : Bool
  desiredMode : Option Mode
  desiredPos : Option Pos
  deriving DecidableEq

/-- The address held by a `shared_ptr<Displ>`. -/
abbrev Ptr := Nat

/-- The display each `shared_ptr<Displ>` points to. -/
abbrev Heap := Ptr → Displ

/-- A write through the pointer `p`. -/
def Heap.set (h : Heap) (p : Ptr) (d : Displ) : Heap :=
  fun q => if q = p then d else h q

/-! ## Mode ranking -/

/-- Modelled from the spec: `Mode::operator<`, declared in `Mode.h`. The spec ranks modes
first by pixel area, then by refresh rate. -/
def Mode.lt (a b : Mode) : Bool :=
  a.width * a.height < b.width * b.height ||
    (a.width * a.height == b.width * b.height && a.refresh < b.refresh)

/-- Modelled from the spec: `sortSharedPtrList` of `util.h`, the stable ascending sort of
`std::list::sort` by the natural order of the pointees. A list of fewer than two pointers
is returned as it is, nothing being compared; in a longer list every pointer is compared
through its pointee, so that a null pointer among them is dereferenced. -/
def sortSharedPtrList (modes : List (Option Mode)) : Run (List (Option Mode)) :=
  if modes.length ≤ 1 then .defined modes
  else if none ∈ modes then .undefined
  else
    .defined
      (((modes.filterMap id).insertionSort (fun a b => Mode.lt b a = false)).map some)

/-- Modelled from the spec: `reverseSharedPtrList` of `util.h`, the list reversed. -/
def reverseSharedPtrList (modes : List (Option Mode)) : List (Option Mode) :=
  modes.reverse

/-! ## Optimal mode, construction and the setters -/

/-- The `for` loop of `generateOptimalMode`, entered with a preferred mode: each mode is
dereferenced in turn; the first with the preferred width and height replaces the running
`optimalMode`, and the loop breaks there. -/
def generateOptimalMode.override (preferredMode : Mode) :
    List (Option Mode) → Option Mode → Run (Option Mode)
  | [], optimalMode => .defined optimalMode
  | none :: _, _ => .undefined
  | some mode :: rest, optimalMode =>
    if mode.width = preferredMode.width ∧ mode.height = preferredMode.height then
      .defined (some mode)
    else generateOptimalMode.override preferredMode rest optimalMode

/-- `generateOptimalMode(modes, preferredMode)`: `modes.front()` is taken as it is, null or
not. -/
def generateOptimalMode (modes : List (Option Mode)) (preferredMode : Option Mode) :
    Run (Option Mode) :=
  match modes with
  | [] => .defined none
  | front :: _ =>
    match preferredMode with
    | none => .defined front
    | some pm => generateOptimalMode.override pm modes front

/-- The body of the constructor `Displ::Displ`, run on the initialised object: the checks
in source order. `modes` is the constructor's parameter, `this.modes` the ranked member. -/
def Displ.new.checks (this : Displ) (modes : List (Option Mode)) : Except Exn Displ :=
  let afterSwitch : Except Exn Unit :=
    match this.state with
    | .active =>
      if this.currentMode.isNone then
        .error (.invalid_argument ("active Displ '" ++ this.name ++ "' has no currentMode"))
      else if this.currentPos.isNone then
        .error (.invalid_argument ("active Displ '" ++ this.name ++ "' has no currentPos"))
      else if modes.isEmpty then
        .error (.invalid_argument ("active Displ '" ++ this.name ++ "' has no modes"))
      else .ok ()
    | .connected =>
      if modes.isEmpty then
        .error (.invalid_argument ("connected Displ '" ++ this.name ++ "' has no modes"))
      else .ok ()
    | .disconnected => .ok ()
  match afterSwitch with
  | .error e => .error e
  | .ok () =>
    if this.state = .active ∨ this.state = .connected then
      if this.currentMode.isSome ∧ this.currentMode ∉ this.modes then
        .error (.invalid_argument
          ("Displ '" ++ this.name ++ "' has currentMode not present in modes"))
      else if this.preferredMode.isSome ∧ this.preferredMode ∉ this.modes then
        .error (.invalid_argument
          ("Displ '" ++ this.name ++ "' has preferredMode not present in modes"))
      else .ok this
    else .ok this

/-- The constructor `Displ::Displ`: the member initialisers, which rank the modes and
generate the optimal mode, then the checks. A constructor that throws leaves no object. The
three desired members start as the spec gives them: not active, no mode, no position. -/
def Displ.new (name : String) (state : State) (modes : List (Option Mode))
    (currentMode preferredMode : Option Mode) (currentPos : Option Pos)
    (edid : Option Edid) : Run (Except Exn Displ) :=
  match sortSharedPtrList modes with
  | .undefined => .undefined
  | .defined sorted =>
    match generateOptimalMode (reverseSharedPtrList sorted) preferredMode with
    | .undefined => .undefined
    | .defined optimalMode =>
      .defined
        (Displ.new.checks
          { name := name, state := state, modes := reverseSharedPtrList sorted,
            currentMode := currentMode, preferredMode := preferredMode,
            optimalMode := optimalMode, currentPos := currentPos, edid := edid,
            desiredActive := false, desiredMode := none, desiredPos := none }
          modes)

/-- The setter `Displ::desiredActive(bool)`. -/
def Displ.setDesiredActive (d : Displ) (desiredActive : Bool) : Outcome Displ :=
  if desiredActive ∧ d.optimalMode.isNone then
    .threw (.invalid_argument
      ("Displ '" ++ d.name ++ "' cannot set desiredActive without optimalMode")) d
  else .returned { d with desiredActive := desiredActive }

/-- The setter `Displ::desiredMode(const shared_ptr<Mode> &)`: `std::find` compares the
pointers, so that a null value is found exactly when the list holds a null pointer. -/
def Displ.setDesiredMode (d : Displ) (desiredMode : Option Mode) : Outcome Displ :=
  if desiredMode ∈ d.modes then .returned { d with desiredMode := desiredMode }
  else
    .threw (.invalid_argument
      ("Displ '" ++ d.name ++ "' cannot set desiredMode which is not present in modes")) d

/-! ## Process-wide selection state -/

/-- The heap of displays with the static members `Displ::desiredPrimary` and
`Displ::desiredDpi`. -/
structure World where
  heap : Heap
  desiredPrimary : Option Ptr
  desiredDpi : Int

/-! ## Case-insensitive name comparison -/

/-- The `tolower` of the C locale on a character code. -/
def tolower (c : Nat) : Nat :=
  if 65 ≤ c ∧ c ≤ 90 then c + 32 else c

/-- The characters `c_str()` exposes to a C string function: those before the first NUL. -/
def c_str (s : String) : List Nat :=
  (s.toList.map Char.toNat).takeWhile (fun c => c != 0)

/-- The comparison loop of `strcasecmp` on two C strings: the difference of the first pair
of lowered characters that differ, the end of a string counting as 0. -/
def strcasecmp.loop : List Nat → List Nat → Int
  | [], [] => 0
  | [], b :: _ => 0 - (tolower b : Int)
  | a :: _, [] => (tolower a : Int)
  | a :: as, b :: bs =>
    if tolower a = tolower b then strcasecmp.loop as bs
    else (tolower a : Int) - (tolower b : Int)

/-- The call `strcasecmp(s1.c_str(), s2.c_str())`. -/
def strcasecmp (s1 s2 : String) : Int :=
  strcasecmp.loop (c_str s1) (c_str s2)

/-! ## Ordering by user priority -/

/-- The member `std::list::remove(value)`: every element equal to `value` is erased. -/
def listRemove (displs : List Ptr) (value : Ptr) : List Ptr :=
  displs.filter (fun p => p != value)

/-- The first loop nest of `orderDispls`: every display matching a name is pushed on the
front of `preferredDispls`. -/
def orderDispls.stack (h : Heap) (displs : List Ptr) (order : List String) : List Ptr :=
  order.foldl
    (fun preferredDispls name =>
      displs.foldl
        (fun preferredDispls displ =>
          if strcasecmp name (h displ).name = 0 then displ :: preferredDispls
          else preferredDispls)
        preferredDispls)
    []

/-- The function `orderDispls(displs, order)`: the reordered list; no display is written. -/
def orderDispls (h : Heap) (displs : List Ptr) (order : List String) : List Ptr :=
  (orderDispls.stack h displs order).foldl
    (fun displs preferredDispl => preferredDispl :: listRemove displs preferredDispl)
    displs

/-! ## Activation and primary selection -/

/-- The function `activateDispls(displs, primary, monitors)`; `shouldDisableDisplay` is the
policy `monitors.shouldDisableDisplay`. -/
def activateDispls (primary : String) (shouldDisableDisplay : String → Bool) :
    List Ptr → World → Outcome World
  | [], w => .returned w
  | displ :: rest, w =>
    if shouldDisableDisplay (w.heap displ).name then
      activateDispls primary shouldDisableDisplay rest w
    else if (w.heap displ).state ≠ .active ∧ (w.heap displ).state ≠ .connected then
      activateDispls primary shouldDisableDisplay rest w
    else
      match (w.heap displ).setDesiredActive true with
      | .threw e _ => .threw e w
      | .returned d =>
        let w1 : World := { w with heap := w.heap.set displ d }
        let w2 : World :=
          if w1.desiredPrimary.isNone then { w1 with desiredPrimary := some displ } else w1
        let w3 : World :=
          if primary.isEmpty = false ∧ strcasecmp primary (w2.heap displ).name = 0 then
            { w2 with desiredPrimary := some displ }
          else w2
        activateDispls primary shouldDisableDisplay rest w3

/-! ## Left-to-right layout -/

/-- The loop of `ltrDispls` with its running `int xpos`; `ypos` stays 0. The width is read
through `desiredMode()`, the pointer the setter has just stored, and added to `xpos` within
the range of `int`. -/
def ltrDispls.loop : List Ptr → Int → Heap → Run (Outcome Heap)
  | [], _, h => .defined (.returned h)
  | displ :: rest, xpos, h =>
    if (h displ).desiredActive then
      match (h displ).setDesiredMode (h displ).optimalMode with
      | .threw e _ => .defined (.threw e h)
      | .returned d =>
        let d1 : Displ := { d with desiredPos := some ⟨xpos, 0⟩ }
        match d1.desiredMode with
        | none => .undefined
        | some m => ltrDispls.loop rest (wrapInt (xpos + m.width)) (h.set displ d1)
    else ltrDispls.loop rest xpos h

/-- The function `ltrDispls(displs)`. -/
def ltrDispls (displs : List Ptr) (h : Heap) : Run (Outcome Heap) :=
  ltrDispls.loop displs 0 h

/-! ## Mirror layout -/

/-- The first loop of `mirrorDispls`: the first display with `desiredActive()`. -/
def mirrorDispls.firstDispl (h : Heap) : List Ptr → Option Ptr
  | [] => none
  | displ :: rest =>
    if (h displ).desiredActive then some displ else mirrorDispls.firstDispl h rest

/-- The innermost loop of `mirrorDispls`: the first mode of a display with the width and
height of `possibleMode`; every comparison dereferences both pointers. -/
def mirrorDispls.findMode (possibleMode : Option Mode) :
    List (Option Mode) → Run (Option Mode)
  | [] => .defined none
  | mode :: rest =>
    match mode, possibleMode with
    | some m, some pm =>
      if m.width = pm.width ∧ m.height = pm.height then .defined (some m)
      else mirrorDispls.findMode possibleMode rest
    | _, _ => .undefined

/-- The loop over the displays for one `possibleMode`, with the running `matched` flag. -/
def mirrorDispls.attempt (possibleMode : Option Mode) :
    List Ptr → Bool → Heap → Run (Outcome (Bool × Heap))
  | [], matched, h => .defined (.returned (matched, h))
  | displ :: rest, matched, h =>
    if (h displ).desiredActive = false then
      mirrorDispls.attempt possibleMode rest matched h
    else
      match mirrorDispls.findMode possibleMode (h displ).modes with
      | .undefined => .undefined
      | .defined desiredMode =>
        let matched1 := matched && desiredMode.isSome
        if matched1 then
          match (h displ).setDesiredMode desiredMode with
          | .threw e _ => .defined (.threw e (matched1, h))
          | .returned d =>
            mirrorDispls.attempt possibleMode rest matched1
              (h.set displ { d with desiredPos := some ⟨0, 0⟩ })
        else mirrorDispls.attempt possibleMode rest matched1 h

/-- The loop over the modes of the first active display. -/
def mirrorDispls.candidates (displs : List Ptr) :
    List (Option Mode) → Heap → Run (Outcome Heap)
  | [], h =>
    .defined (.threw (.runtime_error "unable to find common width/height for mirror") h)
  | possibleMode :: rest, h =>
    match mirrorDispls.attempt possibleMode displs true h with
    | .undefined => .undefined
    | .defined (.threw e s) => .defined (.threw e s.2)
    | .defined (.returned s) =>
      if s.1 then .defined (.returned s.2) else mirrorDispls.candidates displs rest s.2

/-- The function `mirrorDispls(displs)`. -/
def mirrorDispls (displs : List Ptr) (h : Heap) : Run (Outcome Heap) :=
  match mirrorDispls.firstDispl h displs with
  | none => .defined (.returned h)
  | some firstDispl => mirrorDispls.candidates displs (h firstDispl).modes h

/-! ## DPI derivation -/

/-- The function `calculateDpi(displs)`: the text returned and the world it leaves;
`dpiForMode` is `Edid::dpiForMode`. -/
def calculateDpi (dpiForMode : Edid → Mode → Int) (_displs : List Ptr) (w : World) :
    String × World :=
  match w.desiredPrimary with
  | none =>
    ("DPI defaulting to " ++ toString w.desiredDpi ++
      "; no primary display has been set set", w)
  | some primary =>
    match (w.heap primary).edid with
    | none =>
      ("DPI defaulting to " ++ toString w.desiredDpi ++
        "; EDID information not available for primary display " ++ (w.heap primary).name, w)
    | some edid =>
      match (w.heap primary).desiredMode with
      | none =>
        ("DPI defaulting to " ++ toString w.desiredDpi ++
          "; desiredMode not available for primary display " ++ (w.heap primary).name, w)
      | some mode =>
        let desiredDpi := dpiForMode edid mode
        if desiredDpi = 0 then
          ("DPI defaulting to " ++ toString w.desiredDpi ++
            "; no display size EDID information available for " ++ (w.heap primary).name, w)
        else
          ("DPI " ++ toString desiredDpi ++ " for primary display " ++ (w.heap primary).name,
            { w with desiredDpi := desiredDpi })

/-! ## Vocabulary of the specification -/

/-- The lowered C string of a name: two names compare equal under `strcasecmp` exactly
when these agree. -/
def ciKey (s : String) : List Nat := (c_str s).map tolower

/-- A display `activateDispls` does not skip: the policy does not disable it and its state
is active or connected. -/
def eligible (shouldDisableDisplay : String → Bool) (d : Displ) : Bool :=
  !shouldDisableDisplay d.name && decide (d.state = .active ∨ d.state = .connected)

/-- The user-selected primary names this display: the name given is not empty and
compares equal to the display's name under `strcasecmp`. -/
def namedPrimary (primary : String) (d : Displ) : Bool :=
  !primary.isEmpty && decide (strcasecmp primary d.name = 0)

/-- The primary the activation of `displs` ends with, read off the list: the last eligible
display the user named, else the primary held before, else the first eligible display. -/
def primaryAfter (primary : String) (shouldDisableDisplay : String → Bool) (h : Heap)
    (displs : List Ptr) (before : Option Ptr) : Option Ptr :=
  match (displs.filter fun p =>
      eligible shouldDisableDisplay (h p) && namedPrimary primary (h p)).getLast? with
  | some p => some p
  | none =>
    match before with
    | some b => some b
    | none => displs.find? fun p => eligible shouldDisableDisplay (h p)

/-- The heap the activation of `displs` ends with, read off the list: the eligible displays
of the list are marked, nothing else is written. -/
def heapAfterActivate (shouldDisableDisplay : String → Bool) (h : Heap) (displs : List Ptr) :
    Heap :=
  fun q =>
    if q ∈ displs ∧ eligible shouldDisableDisplay (h q) = true then
      { h q with desiredActive := true }
    else h q

/-- The width of a display's `optimalMode`, 0 when it has none. -/
def optimalWidth (d : Displ) : Int :=
  match d.optimalMode with
  | some m => m.width
  | none => 0

/-- The displays of a list with `desiredActive()`, in list order. -/
def activeDispls (h : Heap) (displs : List Ptr) : List Ptr :=
  displs.filter fun p => (h p).desiredActive

/-- The sum of the `optimalMode` widths of a list of displays. -/
def sumOptimalWidths (h : Heap) (displs : List Ptr) : Int :=
  (displs.map fun p => optimalWidth (h p)).sum

/-- The running-sums property of `ltrDispls` at one input: when every active display of the
list has an `optimalMode` among its modes, `ltrDispls` returns normally and the `k`-th
active display has `desiredMode` its `optimalMode` and `desiredPos` the sum of the optimal
widths of the active displays before it, at height 0. A display that is listed again
further on is read at its last place, where it is written last. -/
def LtrRunningSums (displs : List Ptr) (h : Heap) : Prop :=
  (∀ p ∈ displs, (h p).desiredActive = true →
      ∃ m, (h p).optimalMode = some m ∧ some m ∈ (h p).modes) →
    ∃ h1, ltrDispls displs h = .defined (.returned h1) ∧
      ∀ (k : Nat) (p : Ptr), (activeDispls h displs)[k]? = some p →
        p ∉ (activeDispls h displs).drop (k + 1) →
        (h1 p).desiredMode = (h p).optimalMode ∧
          (h1 p).desiredPos = some ⟨sumOptimalWidths h ((activeDispls h displs).take k), 0⟩

/-- The display `ltrDispls` leaves behind at an active position: mode and place written. -/
def placed (d : Displ) (m : Mode) (xpos : Int) : Displ :=
  { d with desiredMode := some m, desiredPos := some ⟨xpos, 0⟩ }

/-- The pointer `mode` is not null and its mode has the width and height of the mode of the
pointer `possibleMode`, not null either. -/
def sameSize (possibleMode mode : Option Mode) : Bool :=
  match possibleMode, mode with
  | some pm, some m => decide (m.width = pm.width ∧ m.height = pm.height)
  | _, _ => false

/-- The size of `possibleMode` occurs in the mode list of every active display of the
list. -/
def commonSize (h : Heap) (displs : List Ptr) (possibleMode : Option Mode) : Bool :=
  displs.all fun p => !(h p).desiredActive || (h p).modes.any (sameSize possibleMode)

/-- The heap `h1` differs from `h` at most in the `desiredMode` and `desiredPos` of its
displays. -/
def SameButLayout (h h1 : Heap) : Prop :=
  ∀ q, h1 q = { h q with desiredMode := (h1 q).desiredMode, desiredPos := (h1 q).desiredPos }

/-- The display a successful mirror pass leaves behind: mode written, rooted at the
origin. -/
def mirrored (d : Displ) (m : Mode) : Displ :=
  { d with desiredMode := some m, desiredPos := some ⟨0, 0⟩ }

/-- The property "no optimal mode exactly for an empty list" at one input: what
`generateOptimalMode` returns is null if and only if the list is empty. -/
def OptimalNoneIffEmpty (modes : List (Option Mode)) (preferredMode : Option Mode) : Prop :=
  ∀ r, generateOptimalMode modes preferredMode = .defined r → (r = none ↔ modes = [])

/-! ## Sample displays -/

/-- A display as the constructor leaves it for the given name, state and ranked modes, none
of them held by a null pointer, with no preferred mode, and with `desiredActive` as
given. -/
def sampleDispl (name : String) (state : State) (modes : List Mode) (desiredActive : Bool) :
    Displ :=
  { name := name, state := state, modes := modes.map some, currentMode := modes.head?,
    preferredMode := none, optimalMode := modes.head?,
    currentPos := some ⟨0, 0⟩, edid := none,
    desiredActive := desiredActive, desiredMode := none, desiredPos := none }

/-- Three active displays with the mode sets {1920x1080, 1280x720}, {1280x720} and
{1920x1080, 1280x720}, and an inactive fourth. -/
def activeHeap : Heap := fun p =>
  match p with
  | 0 => sampleDispl "A" .active [⟨1, 1920, 1080, 60⟩, ⟨2, 1280, 720, 60⟩] true
  | 1 => sampleDispl "B" .active [⟨3, 1280, 720, 60⟩] true
  | 2 => sampleDispl "C" .active [⟨4, 1920, 1080, 60⟩, ⟨5, 1280, 720, 60⟩] true
  | _ => sampleDispl "D" .connected [⟨6, 1024, 768, 60⟩] false

/-- Two active displays without a common size. -/
def disjointHeap : Heap := fun p =>
  match p with
  | 0 => sampleDispl "A" .active [⟨1, 1920, 1080, 60⟩] true
  | _ => sampleDispl "B" .active [⟨2, 1280, 720, 60⟩] true

/-- Three active displays, each 1073741824 wide: the third stands at 2147483648, one past
the largest `int`. -/
def wideHeap : Heap := fun p =>
  match p with
  | 0 => sampleDispl "A" .active [⟨1, 1073741824, 1080, 60⟩] true
  | 1 => sampleDispl "B" .active [⟨2, 1073741824, 1080, 60⟩] true
  | _ => sampleDispl "C" .active [⟨3, 1073741824, 1080, 60⟩] true

/-- Four displays before activation: an active one, two connected ones and a disconnected
one without modes. -/
def startHeap : Heap := fun p =>
  match p with
  | 0 => sampleDispl "eDP-1" .active [⟨1, 1920, 1080, 60⟩] false
  | 1 => sampleDispl "HDMI-1" .connected [⟨2, 2560, 1440, 60⟩] false
  | 2 => sampleDispl "DP-2" .connected [⟨3, 1280, 720, 60⟩] false
  | _ => { sampleDispl "DP-1" .disconnected [] false with currentPos := none }

/-- The world before activation: no primary chosen, 96 dots per inch. -/
def startWorld : World :=
  { heap := startHeap, desiredPrimary := none, desiredDpi := 96 }

/-- A policy that disables the display named `DP-2`. -/
def samplePolicy (name : String) : Bool :=
  decide (name = "DP-2")

/-- The display the constructor returns for a connected display whose mode list holds one
null pointer: the list is not empty, and the optimal mode is its null head. -/
def nullModeDispl : Displ :=
  { name := "VGA-1", state := .connected, modes := [none], currentMode := none,
    preferredMode := none, optimalMode := none, currentPos := none, edid := none,
    desiredActive := false, desiredMode := none, desiredPos := none }

/-- A world whose displays are all the display with the null mode pointer. -/
def nullModeWorld : World :=
  { heap := fun _ => nullModeDispl, desiredPrimary := none, desiredDpi := 96 }

/-! ## Displays that exist -/

/-- The displays a program can hold: those the constructor returned, and those obtained
from them by the two setters and by writing the public member `desiredPos`. -/
inductive Displ.Reachable : Displ → Prop where
  | constructed (name : String) (state : State) (modes : List (Option Mode))
      (currentMode preferredMode : Option Mode) (currentPos : Option Pos)
      (edid : Option Edid) (d : Displ) :
      Displ.new name state modes currentMode preferredMode currentPos edid =
        .defined (.ok d) →
      Displ.Reachable d
  | desiredActive (d d1 : Displ) (value : Bool) :
      Displ.Reachable d → d.setDesiredActive value = .returned d1 → Displ.Reachable d1
  | desiredMode (d d1 : Displ) (value : Option Mode) :
      Displ.Reachable d → d.setDesiredMode value = .returned d1 → Displ.Reachable d1
  | desiredPos (d : Displ) (value : Option Pos) :
      Displ.Reachable d → Displ.Reachable { d with desiredPos := value }

/-- The class invariant the layout relies on: the `optimalMode` pointer of an active or
connected display is one of the pointers of its mode list, a display marked `desiredActive`
has an `optimalMode`, and an `optimalMode` or `desiredMode` that is not null is among the
modes. -/
def Displ.Sound (d : Displ) : Prop :=
  ((d.state = .active ∨ d.state = .connected) → d.optimalMode ∈ d.modes) ∧
    (d.desiredActive = true → d.optimalMode ≠ none) ∧
    (∀ m, d.optimalMode = some m → some m ∈ d.modes) ∧
    (∀ m, d.desiredMode = some m → some m ∈ d.modes)

/-- The property "a null desired mode is refused" at one display: when the display was
constructed and since changed only through its setters, `desiredMode(nullptr)` throws and
leaves the display as it was. -/
def NullModeRefused (d : Displ) : Prop :=
  d.Reachable → ∃ e, d.setDesiredMode none = .threw e d

/-- The property "activation and left-to-right layout return" at one input: when every
display of the list was constructed and since changed only through its setters,
`activateDispls` returns normally and `ltrDispls` on the same list returns normally after
it. -/
def ActivateLtrReturn (primary : String) (shouldDisableDisplay : String → Bool)
    (displs : List Ptr) (w : World) : Prop :=
  (∀ p ∈ displs, (w.heap p).Reachable) →
    ∃ w1 h2, activateDispls primary shouldDisableDisplay displs w = .returned w1 ∧
      ltrDispls displs w1.heap = .defined (.returned h2)

/-- The static initialisers of `Displ.cpp`: no primary, and the constant `DEFAULT_DPI`
(defined outside `Displ.cpp`, a parameter here) as desired DPI. -/
def World.initial (DEFAULT_DPI : Int) (heap : Heap) : World :=
  { heap := heap, desiredPrimary := none, desiredDpi := DEFAULT_DPI }

/-- The third branch of `calculateDpi` is the one taken: a primary is set, it has EDID
data, and it has no desired mode. -/
def takesNoDesiredMode (w : World) : Bool :=
  match w.desiredPrimary with
  | none => false
  | some primary => (w.heap primary).edid.isSome && (w.heap primary).desiredMode.isNone

/-- The first occurrences of a list, in order. -/
def keepFirst : List Ptr → List Ptr
  | [] => []
  | p :: rest => p :: (keepFirst rest).filter (fun q => q != p)

/-- A primary with EDID data and a desired mode, and a second display alike. -/
def dpiHeap : Heap := fun p =>
  match p with
  | 0 => { sampleDispl "eDP-1" .active [⟨1, 1920, 1080, 60⟩] true with
            edid := some ⟨1⟩, desiredMode := some ⟨1, 1920, 1080, 60⟩ }
  | _ => { sampleDispl "HDMI-1" .active [⟨2, 2560, 1440, 60⟩] true with
            edid := some ⟨2⟩, desiredMode := some ⟨2, 2560, 1440, 60⟩ }

/-- An EDID reading that knows the size of the first sample display only: 144 dots per inch
for it, 0 for any other. -/
def sampleDpiForMode (edid : Edid) (_mode : Mode) : Int :=
  if edid.addr = 1 then 144 else 0

/-- The all-or-nothing property of a failing mirror layout at one input: when
`mirrorDispls` throws, every display has the `desiredMode` and `desiredPos` it had before. -/
def MirrorAllOrNothing (displs : List Ptr) (h : Heap) : Prop :=
  ∀ e h1, mirrorDispls displs h = .defined (.threw e h1) →
    ∀ q, (h1 q).desiredMode = (h q).desiredMode ∧ (h1 q).desiredPos = (h q).desiredPos

/-- The display `d` is what a mirror pass for the candidate `c` writes at the active display
`q`: `q` stands in the list behind active displays that all have a mode of the size of `c`,
and `d` is `q` with the first mode of its own list of that size, at the origin. -/
def WrittenFor (h : Heap) (displs : List Ptr) (c : Option Mode) (q : Ptr) (d : Displ) :
    Prop :=
  (h q).desiredActive = true ∧
    (∃ pre post, displs = pre ++ q :: post ∧
      ∀ p ∈ pre, (h p).desiredActive = true →
        ((h p).modes.find? (sameSize c)).isSome = true) ∧
    ∃ m, (h q).modes.find? (sameSize c) = some (some m) ∧ d = mirrored (h q) m

/-- Four displays of which two share a name up to case. -/
def sharedNameHeap : Heap := fun p =>
  match p with
  | 0 => sampleDispl "A" .active [⟨1, 1920, 1080, 60⟩] false
  | 1 => sampleDispl "B" .active [⟨2, 1920, 1080, 60⟩] false
  | 2 => sampleDispl "a" .active [⟨3, 1920, 1080, 60⟩] false
  | _ => sampleDispl "C" .active [⟨4, 1920, 1080, 60⟩] false

/-! ## Outcomes -/

theorem Outcome.eq_returned {σ : Type} (o : Outcome σ) (h : o.thrown = none) :
    o = .returned o.state := by
  cases o with
  | returned s => rfl
  | threw e s => cases h

theorem Run.eq_defined {α : Type} (r : Run α) (a : α) (h : r.result = some a) :
    r = .defined a := by
  cases r with
  | defined b => simp only [Run.result, Option.some.injEq] at h; rw [h]
  | undefined => cases h

theorem wrapInt_add (a b : Int) : wrapInt (wrapInt a + b) = wrapInt (a + b) := by
  unfold wrapInt; omega

theorem wrapInt_of_fits (z : Int) (h0 : -2147483648 ≤ z) (h1 : z < 2147483648) :
    wrapInt z = z := by
  unfold wrapInt; omega

theorem wrapInt_idem (z : Int) : wrapInt (wrapInt z) = wrapInt z := by
  unfold wrapInt; omega

/-! ## Optimal mode and construction -/

theorem mem_sorted (modes sorted : List (Option Mode))
    (hs : sortSharedPtrList modes = .defined sorted) (x : Option Mode) :
    x ∈ reverseSharedPtrList sorted ↔ x ∈ modes := by
  unfold reverseSharedPtrList
  rw [List.mem_reverse]
  unfold sortSharedPtrList at hs
  split_ifs at hs with h1 h2
  · cases hs; rfl
  · cases hs
    simp only [List.mem_map]
    constructor
    · rintro ⟨m, hm, rfl⟩
      have := (List.perm_insertionSort _ _).mem_iff.mp hm
      simpa using this
    · intro hx
      cases x with
      | none => exact absurd hx h2
      | some m =>
        refine ⟨m, ?_, rfl⟩
        apply (List.perm_insertionSort _ _).mem_iff.mpr
        simpa using hx

theorem sorted_defined (modes : List (Option Mode))
    (h : none ∉ modes ∨ modes.length ≤ 1) : ∃ sorted, sortSharedPtrList modes = .defined sorted := by
  unfold sortSharedPtrList
  by_cases h1 : modes.length ≤ 1
  · exact ⟨_, by rw [if_pos h1]⟩
  · rcases h with h | h
    · exact ⟨_, by rw [if_neg h1, if_neg h]⟩
    · exact absurd h h1

theorem ranked_ne_nil (modes sorted : List (Option Mode))
    (hs : sortSharedPtrList modes = .defined sorted) (h : modes ≠ []) :
    reverseSharedPtrList sorted ≠ [] := by
  cases modes with
  | nil => exact absurd rfl h
  | cons a rest =>
    intro hr
    have : a ∈ reverseSharedPtrList sorted := (mem_sorted _ _ hs a).mpr (by simp)
    rw [hr] at this
    cases this

theorem override_defined (pm : Mode) (modes : List (Option Mode)) (dflt r : Option Mode)
    (h : generateOptimalMode.override pm modes dflt = .defined r) :
    (∃ pre m post, modes = pre ++ some m :: post ∧
        (∀ x ∈ pre, ∃ m0, x = some m0 ∧ ¬ (m0.width = pm.width ∧ m0.height = pm.height)) ∧
        (m.width = pm.width ∧ m.height = pm.height) ∧ r = some m) ∨
      ((∀ x ∈ modes, ∃ m0, x = some m0 ∧ ¬ (m0.width = pm.width ∧ m0.height = pm.height)) ∧
        r = dflt) := by
  induction modes with
  | nil =>
    right
    simp only [generateOptimalMode.override, Run.defined.injEq] at h
    exact ⟨by simp, h.symm⟩
  | cons a rest ih =>
    cases a with
    | none => simp [generateOptimalMode.override] at h
    | some m =>
      by_cases hm : m.width = pm.width ∧ m.height = pm.height
      · left
        simp only [generateOptimalMode.override, if_pos hm, Run.defined.injEq] at h
        exact ⟨[], m, rest, rfl, by simp, hm, h.symm⟩
      · simp only [generateOptimalMode.override, if_neg hm] at h
        rcases ih h with ⟨pre, m1, post, he, hpre, hm1, hr⟩ | ⟨hall, hr⟩
        · left
          refine ⟨some m :: pre, m1, post, by simp [he], ?_, hm1, hr⟩
          intro x hx
          rcases List.mem_cons.mp hx with rfl | hx
          · exact ⟨m, rfl, hm⟩
          · exact hpre x hx
        · right
          refine ⟨?_, hr⟩
          intro x hx
          rcases List.mem_cons.mp hx with rfl | hx
          · exact ⟨m, rfl, hm⟩
          · exact hall x hx

theorem override_total (pm : Mode) (modes : List (Option Mode)) (dflt : Option Mode)
    (hnull : none ∉ modes) : ∃ r, generateOptimalMode.override pm modes dflt = .defined r := by
  induction modes with
  | nil => exact ⟨dflt, rfl⟩
  | cons a rest ih =>
    cases a with
    | none => exact absurd (List.mem_cons_self _ _) hnull
    | some m =>
      by_cases hm : m.width = pm.width ∧ m.height = pm.height
      · exact ⟨some m, by simp [generateOptimalMode.override, hm]⟩
      · obtain ⟨r, hr⟩ := ih (fun hn => hnull (List.mem_cons_of_mem _ hn))
        exact ⟨r, by simp only [generateOptimalMode.override, if_neg hm, hr]⟩

theorem find_of_first (pm : Mode) (pre post : List (Option Mode)) (m : Mode)
    (hpre : ∀ x ∈ pre, ∃ m0, x = some m0 ∧ ¬ (m0.width = pm.width ∧ m0.height = pm.height))
    (hm : m.width = pm.width ∧ m.height = pm.height) :
    (pre ++ some m :: post).find? (sameSize (some pm)) = some (some m) := by
  induction pre with
  | nil => simp [List.find?_cons, sameSize, hm]
  | cons a pre ih =>
    obtain ⟨m0, rfl, hm0⟩ := hpre a (by simp)
    have : sameSize (some pm) (some m0) = false := by
      simp only [sameSize]; exact decide_eq_false hm0
    rw [List.cons_append, List.find?_cons, this]
    exact ih (fun x hx => hpre x (by simp [hx]))

theorem generateOptimalMode_total (modes : List (Option Mode)) (preferredMode : Option Mode)
    (h : none ∉ modes ∨ preferredMode = none) :
    ∃ r, generateOptimalMode modes preferredMode = .defined r := by
  cases modes with
  | nil => exact ⟨none, rfl⟩
  | cons a rest =>
    cases preferredMode with
    | none => exact ⟨a, rfl⟩
    | some pm =>
      rcases h with h | h
      · exact override_total pm (a :: rest) a h
      · cases h

/-- C4: when some mode of the list has the width and height of the preferred mode, what
`generateOptimalMode` returns is the first mode of the list with that width and height: the
pointers before it in the list are not null and their modes have another size. It does
return when the list holds no null pointer. -/
theorem generateOptimalMode_preferred (modes : List (Option Mode)) (pm : Mode)
    (h : ∃ m, some m ∈ modes ∧ m.width = pm.width ∧ m.height = pm.height) :
    (∀ r, generateOptimalMode modes (some pm) = .defined r →
      modes.find? (sameSize (some pm)) = some r ∧
        ∃ pre m post, modes = pre ++ some m :: post ∧
          (∀ x ∈ pre, ∃ m0, x = some m0 ∧
            ¬ (m0.width = pm.width ∧ m0.height = pm.height)) ∧
          (m.width = pm.width ∧ m.height = pm.height) ∧ r = some m) ∧
    (none ∉ modes → ∃ r, generateOptimalMode modes (some pm) = .defined r) := by
  refine ⟨?_, fun hnull => generateOptimalMode_total modes (some pm) (Or.inl hnull)⟩
  intro r hr
  obtain ⟨m1, hm1, hsz⟩ := h
  cases modes with
  | nil => cases hm1
  | cons a rest =>
    simp only [generateOptimalMode] at hr
    rcases override_defined pm (a :: rest) a r hr with
      ⟨pre, m, post, he, hpre, hm, hrm⟩ | ⟨hall, _⟩
    · refine ⟨?_, pre, m, post, he, hpre, hm, hrm⟩
      rw [he, hrm]
      exact find_of_first pm pre post m hpre hm
    · obtain ⟨m0, he, hno⟩ := hall (some m1) hm1
      cases he
      exact absurd hsz hno

/-- Of 1920x1080 at 60, 1920x1080 at 144 and 2560x1440 at 60, ranked, with 1920x1080 at 60
preferred, the optimal mode is 1920x1080 at 144. -/
theorem generateOptimalMode_preferred_witness :
    sortSharedPtrList
        [some ⟨3, 2560, 1440, 60⟩, some ⟨1, 1920, 1080, 60⟩, some ⟨2, 1920, 1080, 144⟩] =
      .defined
        [some ⟨1, 1920, 1080, 60⟩, some ⟨2, 1920, 1080, 144⟩, some ⟨3, 2560, 1440, 60⟩] ∧
    generateOptimalMode
        (reverseSharedPtrList
          [some ⟨1, 1920, 1080, 60⟩, some ⟨2, 1920, 1080, 144⟩, some ⟨3, 2560, 1440, 60⟩])
        (some ⟨1, 1920, 1080, 60⟩) =
      .defined (some ⟨2, 1920, 1080, 144⟩) := by
  refine ⟨rfl, ?_⟩
  have h := generateOptimalMode_preferred
    (reverseSharedPtrList
      [some ⟨1, 1920, 1080, 60⟩, some ⟨2, 1920, 1080, 144⟩, some ⟨3, 2560, 1440, 60⟩])
    ⟨1, 1920, 1080, 60⟩ ⟨⟨1, 1920, 1080, 60⟩, by decide, by decide⟩
  obtain ⟨r, hr⟩ := h.2 (by decide)
  have hfind := (h.1 r hr).1
  have hconcrete : (reverseSharedPtrList
      [some ⟨1, 1920, 1080, 60⟩, some ⟨2, 1920, 1080, 144⟩,
        some ⟨3, 2560, 1440, 60⟩]).find? (sameSize (some ⟨1, 1920, 1080, 60⟩)) =
      some (some ⟨2, 1920, 1080, 144⟩) := by decide
  have hval : r = some ⟨2, 1920, 1080, 144⟩ :=
    Option.some.inj (hfind.symm.trans hconcrete)
  rw [hr, hval]

/-- C5, amended: without a preferred mode, or when no mode of the list has the width and
height of the preferred mode, what `generateOptimalMode` returns is the head of the list,
null for the empty list; and whatever the preferred mode, what it returns is null exactly
when the list is empty or, no preferred mode given, the head of the list is a null
pointer. It does return when no preferred mode is given or the list holds no null
pointer. -/
theorem generateOptimalMode_default (modes : List (Option Mode))
    (preferredMode : Option Mode) :
    ((preferredMode = none ∨
        ∃ pm, preferredMode = some pm ∧
          ∀ m, some m ∈ modes → ¬ (m.width = pm.width ∧ m.height = pm.height)) →
      ∀ r, generateOptimalMode modes preferredMode = .defined r → r = modes.head?.join) ∧
    (∀ r, generateOptimalMode modes preferredMode = .defined r →
      (r = none ↔ (modes = [] ∨ (preferredMode = none ∧ modes.head? = some none)))) ∧
    ((none ∉ modes ∨ preferredMode = none) →
      ∃ r, generateOptimalMode modes preferredMode = .defined r) := by
  refine ⟨?_, ?_, generateOptimalMode_total modes preferredMode⟩
  · intro h r hr
    cases modes with
    | nil =>
      simp only [generateOptimalMode, Run.defined.injEq] at hr
      rw [← hr]; rfl
    | cons a rest =>
      rcases h with rfl | ⟨pm, rfl, hno⟩
      · simp only [generateOptimalMode, Run.defined.injEq] at hr
        rw [← hr]; rfl
      · simp only [generateOptimalMode] at hr
        rcases override_defined pm (a :: rest) a r hr with
          ⟨pre, m, post, he, _, hm, _⟩ | ⟨_, hr2⟩
        · exact absurd hm (hno m (by rw [he]; simp))
        · rw [hr2]; rfl
  · intro r hr
    cases modes with
    | nil =>
      simp only [generateOptimalMode, Run.defined.injEq] at hr
      simp [← hr]
    | cons a rest =>
      cases preferredMode with
      | none =>
        simp only [generateOptimalMode, Run.defined.injEq] at hr
        subst hr
        simp
      | some pm =>
        simp only [generateOptimalMode] at hr
        rcases override_defined pm (a :: rest) a r hr with
          ⟨_, m, _, _, _, _, hrm⟩ | ⟨hall, hr2⟩
        · simp [hrm]
        · obtain ⟨m0, ha, _⟩ := hall a (by simp)
          simp [hr2, ha]

/-- The head of the list is returned without a preferred mode and with one of a size the
list lacks; an empty list gives null, and so does a list whose head is a null pointer. -/
theorem generateOptimalMode_default_witness :
    generateOptimalMode [some ⟨3, 2560, 1440, 60⟩, some ⟨2, 1920, 1080, 144⟩] none =
        .defined (some ⟨3, 2560, 1440, 60⟩) ∧
      generateOptimalMode [some ⟨3, 2560, 1440, 60⟩, some ⟨2, 1920, 1080, 144⟩]
          (some ⟨9, 800, 600, 60⟩) = .defined (some ⟨3, 2560, 1440, 60⟩) ∧
      generateOptimalMode [] (some ⟨9, 800, 600, 60⟩) = .defined none ∧
      generateOptimalMode [none] none = .defined none := by
  have h1 := generateOptimalMode_default
    [some ⟨3, 2560, 1440, 60⟩, some ⟨2, 1920, 1080, 144⟩] none
  have h2 := generateOptimalMode_default
    [some ⟨3, 2560, 1440, 60⟩, some ⟨2, 1920, 1080, 144⟩] (some ⟨9, 800, 600, 60⟩)
  have h3 := generateOptimalMode_default [] (some ⟨9, 800, 600, 60⟩)
  have h4 := generateOptimalMode_default [none] none
  obtain ⟨r1, hr1⟩ := h1.2.2 (Or.inr rfl)
  have hno : ∀ m : Mode, some m ∈
      [some (⟨3, 2560, 1440, 60⟩ : Mode), some ⟨2, 1920, 1080, 144⟩] →
      ¬ (m.width = (⟨9, 800, 600, 60⟩ : Mode).width ∧
        m.height = (⟨9, 800, 600, 60⟩ : Mode).height) := by
    intro m hm
    simp only [List.mem_cons, Option.some.injEq, List.mem_singleton, List.not_mem_nil,
      or_false] at hm
    rcases hm with rfl | rfl <;> decide
  obtain ⟨r2, hr2⟩ := h2.2.2 (Or.inl (by decide))
  obtain ⟨r3, hr3⟩ := h3.2.2 (Or.inl (by decide))
  obtain ⟨r4, hr4⟩ := h4.2.2 (Or.inr rfl)
  refine ⟨?_, ?_, ?_, ?_⟩
  · rw [hr1, h1.1 (Or.inl rfl) r1 hr1]; rfl
  · rw [hr2, h2.1 (Or.inr ⟨_, rfl, hno⟩) r2 hr2]; rfl
  · rw [hr3, (h3.2.1 r3 hr3).mpr (Or.inl rfl)]
  · rw [hr4, (h4.2.1 r4 hr4).mpr (Or.inr ⟨rfl, rfl⟩)]

/-- A list whose single pointer is null is not empty, yet the optimal mode generated from
it is null. -/
theorem generateOptimalMode_null_head : ¬ OptimalNoneIffEmpty [none] none := by
  intro hiff
  have := (hiff none rfl).mp rfl
  cases this

theorem Displ_new_defined (name : String) (state : State) (modes : List (Option Mode))
    (currentMode preferredMode : Option Mode) (currentPos : Option Pos) (edid : Option Edid)
    (r : Except Exn Displ)
    (h : Displ.new name state modes currentMode preferredMode currentPos edid = .defined r) :
    ∃ sorted optimalMode, sortSharedPtrList modes = .defined sorted ∧
      generateOptimalMode (reverseSharedPtrList sorted) preferredMode = .defined optimalMode ∧
      r = Displ.new.checks
        { name := name, state := state, modes := reverseSharedPtrList sorted,
          currentMode := currentMode, preferredMode := preferredMode,
          optimalMode := optimalMode, currentPos := currentPos, edid := edid,
          desiredActive := false, desiredMode := none, desiredPos := none }
        modes := by
  unfold Displ.new at h
  cases hs : sortSharedPtrList modes with
  | undefined => rw [hs] at h; cases h
  | defined sorted =>
    rw [hs] at h
    simp only at h
    cases hg : generateOptimalMode (reverseSharedPtrList sorted) preferredMode with
    | undefined => rw [hg] at h; cases h
    | defined optimalMode =>
      rw [hg] at h
      simp only [Run.defined.injEq] at h
      exact ⟨sorted, optimalMode, rfl, hg, h.symm⟩

theorem Displ_new_total (name : String) (state : State) (modes : List (Option Mode))
    (currentMode preferredMode : Option Mode) (currentPos : Option Pos) (edid : Option Edid)
    (h : none ∉ modes ∨ (modes.length ≤ 1 ∧ preferredMode = none)) :
    ∃ r, Displ.new name state modes currentMode preferredMode currentPos edid = .defined r := by
  obtain ⟨sorted, hs⟩ := sorted_defined modes (h.imp id (fun h => h.1))
  have hnull : none ∉ reverseSharedPtrList sorted ∨ preferredMode = none := by
    rcases h with h | h
    · left; rw [mem_sorted _ _ hs]; exact h
    · right; exact h.2
  obtain ⟨opt, hg⟩ := generateOptimalMode_total (reverseSharedPtrList sorted) preferredMode hnull
  rw [Displ.new]
  simp only [hs, hg]
  exact ⟨_, rfl⟩

theorem checks_spec (this : Displ) (modes : List (Option Mode))
    (hmem : ∀ x, x ∈ this.modes ↔ x ∈ modes) :
    ((∃ e, Displ.new.checks this modes = .error e) ↔
      ((this.state = .active ∧
          (this.currentMode = none ∨ this.currentPos = none ∨ modes = [])) ∨
        (this.state = .connected ∧ modes = []) ∨
        ((this.state = .active ∨ this.state = .connected) ∧
          ((∃ m, this.currentMode = some m ∧ some m ∉ modes) ∨
            (∃ m, this.preferredMode = some m ∧ some m ∉ modes))))) ∧
    (∀ e, Displ.new.checks this modes = .error e → ∃ what, e = .invalid_argument what) ∧
    (∀ d, Displ.new.checks this modes = .ok d → d = this) := by
  obtain ⟨name, state, tmodes, currentMode, preferredMode, optimalMode, currentPos, edid,
    desiredActive, desiredMode, desiredPos⟩ := this
  simp only at hmem
  refine ⟨?_, ?_, ?_⟩
  · cases state <;> cases currentMode <;> cases preferredMode <;> cases currentPos <;>
      cases modes <;> simp [Displ.new.checks, hmem] <;> (try split_ifs) <;> (try simp_all)
  · intro e
    cases state <;> cases currentMode <;> cases preferredMode <;> cases currentPos <;>
      cases modes <;> simp [Displ.new.checks, hmem] <;> (try split_ifs) <;> (try simp_all) <;>
      (try (intro h; exact ⟨_, h.symm⟩))
  · intro d
    cases state <;> cases currentMode <;> cases preferredMode <;> cases currentPos <;>
      cases modes <;> simp [Displ.new.checks, hmem] <;> (try split_ifs) <;> (try simp_all)

/-- C10: the constructor throws exactly when the state is active and `currentMode`,
`currentPos` or the modes are missing, or the state is connected and there are no modes, or
the state is active or connected and a given `currentMode` or `preferredMode` is not among
the modes; it then throws `invalid_argument`; a constructed active display has its
`currentMode` and `currentPos` set and its `currentMode` among its modes; and construction of
a disconnected display always succeeds. The constructor does run to its end, one way or
the other, on a mode list without null pointers. -/
theorem Displ_new_fails_iff (name : String) (state : State) (modes : List (Option Mode))
    (currentMode preferredMode : Option Mode) (currentPos : Option Pos) (edid : Option Edid) :
    (∀ r, Displ.new name state modes currentMode preferredMode currentPos edid = .defined r →
      ((∃ e, r = .error e) ↔
        ((state = .active ∧ (currentMode = none ∨ currentPos = none ∨ modes = [])) ∨
          (state = .connected ∧ modes = []) ∨
          ((state = .active ∨ state = .connected) ∧
            ((∃ m, currentMode = some m ∧ some m ∉ modes) ∨
              (∃ m, preferredMode = some m ∧ some m ∉ modes))))) ∧
      (∀ e, r = .error e → ∃ what, e = .invalid_argument what) ∧
      (∀ d, r = .ok d → d.state = .active →
        ∃ cm pos, d.currentMode = some cm ∧ d.currentPos = some pos ∧ some cm ∈ d.modes) ∧
      (state = .disconnected → ∃ d, r = .ok d)) ∧
    ((none ∉ modes ∨ (modes.length ≤ 1 ∧ preferredMode = none)) →
      ∃ r, Displ.new name state modes currentMode preferredMode currentPos edid =
        .defined r) := by
  refine ⟨?_, Displ_new_total name state modes currentMode preferredMode currentPos edid⟩
  intro r hr
  obtain ⟨sorted, optimalMode, hs, _, rfl⟩ :=
    Displ_new_defined name state modes currentMode preferredMode currentPos edid r hr
  have hmem := mem_sorted modes sorted hs
  have hspec := checks_spec
    { name := name, state := state, modes := reverseSharedPtrList sorted,
      currentMode := currentMode, preferredMode := preferredMode,
      optimalMode := optimalMode, currentPos := currentPos, edid := edid,
      desiredActive := false, desiredMode := none, desiredPos := none } modes hmem
  refine ⟨hspec.1, hspec.2.1, ?_, ?_⟩
  · intro d hd hact
    have hd2 := hspec.2.2 d hd
    have hnot : ¬ ∃ e, Displ.new.checks
        { name := name, state := state, modes := reverseSharedPtrList sorted,
          currentMode := currentMode, preferredMode := preferredMode,
          optimalMode := optimalMode, currentPos := currentPos, edid := edid,
          desiredActive := false, desiredMode := none, desiredPos := none } modes =
        .error e := by
      rintro ⟨e, he⟩
      rw [hd] at he
      cases he
    rw [hspec.1] at hnot
    subst hd2
    simp only at hact hnot ⊢
    subst hact
    cases currentMode with
    | none => exact absurd (Or.inl ⟨rfl, Or.inl rfl⟩) hnot
    | some cm =>
      cases currentPos with
      | none => exact absurd (Or.inl ⟨rfl, Or.inr (Or.inl rfl)⟩) hnot
      | some pos =>
        refine ⟨cm, pos, rfl, rfl, ?_⟩
        rw [hmem]
        by_contra hcm
        exact hnot (Or.inr (Or.inr ⟨Or.inl rfl, Or.inl ⟨cm, rfl, hcm⟩⟩))
  · rintro rfl
    cases hc : Displ.new.checks
        { name := name, state := .disconnected, modes := reverseSharedPtrList sorted,
          currentMode := currentMode, preferredMode := preferredMode,
          optimalMode := optimalMode, currentPos := currentPos, edid := edid,
          desiredActive := false, desiredMode := none, desiredPos := none } modes with
    | ok d => exact ⟨d, rfl⟩
    | error e =>
      have := hspec.1.mp ⟨e, hc⟩
      simp at this

/-- An active display whose `currentMode` is not among its modes is rejected; a disconnected
display without modes is constructed. -/
theorem Displ_new_fails_iff_witness :
    (∃ e, Displ.new "A" .active [some ⟨1, 1920, 1080, 60⟩] (some ⟨2, 1920, 1080, 60⟩) none
        (some ⟨0, 0⟩) none = .defined (.error e)) ∧
      (∃ d, Displ.new "B" .disconnected [] none (some ⟨7, 800, 600, 60⟩) none none =
        .defined (.ok d)) := by
  have hA := Displ_new_fails_iff "A" .active [some ⟨1, 1920, 1080, 60⟩]
    (some ⟨2, 1920, 1080, 60⟩) none (some ⟨0, 0⟩) none
  have hB := Displ_new_fails_iff "B" .disconnected [] none (some ⟨7, 800, 600, 60⟩) none none
  obtain ⟨rA, hrA⟩ := hA.2 (Or.inl (by decide))
  obtain ⟨rB, hrB⟩ := hB.2 (Or.inl (by decide))
  obtain ⟨e, he⟩ := (hA.1 rA hrA).1.mpr
    (Or.inr (Or.inr ⟨Or.inl rfl, Or.inl ⟨_, rfl, by decide⟩⟩))
  obtain ⟨d, hd⟩ := (hB.1 rB hrB).2.2.2 rfl
  exact ⟨⟨e, by rw [hrA, he]⟩, ⟨d, by rw [hrB, hd]⟩⟩

/-! ## Case-insensitive comparison -/

theorem tolower_ne_zero (c : Nat) (h : c ≠ 0) : tolower c ≠ 0 := by
  unfold tolower; split_ifs <;> omega

theorem strcasecmp_loop_eq_zero (as bs : List Nat) (ha : ∀ a ∈ as, a ≠ 0)
    (hb : ∀ b ∈ bs, b ≠ 0) :
    strcasecmp.loop as bs = 0 ↔ as.map tolower = bs.map tolower := by
  induction as generalizing bs with
  | nil =>
    cases bs with
    | nil => simp [strcasecmp.loop]
    | cons b bs =>
      have := tolower_ne_zero b (hb b (by simp))
      simp [strcasecmp.loop]; omega
  | cons a as ih =>
    cases bs with
    | nil =>
      have := tolower_ne_zero a (ha a (by simp))
      simp [strcasecmp.loop]; omega
    | cons b bs =>
      have iha := ih bs (fun x hx => ha x (by simp [hx])) (fun x hx => hb x (by simp [hx]))
      by_cases hab : tolower a = tolower b
      · simp [strcasecmp.loop, hab, iha]
      · simp [strcasecmp.loop, hab]; omega

theorem c_str_ne_zero (s : String) : ∀ c ∈ c_str s, c ≠ 0 := by
  intro c hc
  have := List.mem_takeWhile_imp hc
  simpa using this

theorem strcasecmp_eq_zero (a b : String) : strcasecmp a b = 0 ↔ ciKey a = ciKey b :=
  strcasecmp_loop_eq_zero _ _ (c_str_ne_zero a) (c_str_ne_zero b)

/-! ## Ordering -/

theorem stack_inner (P : Ptr → Prop) [DecidablePred P] (displs acc : List Ptr) :
    displs.foldl (fun acc displ => if P displ then displ :: acc else acc) acc =
      (displs.filter (fun p => decide (P p))).reverse ++ acc := by
  induction displs generalizing acc with
  | nil => rfl
  | cons d rest ih =>
    by_cases hd : P d
    · simp [List.foldl_cons, hd, ih, List.filter_cons]
    · simp [List.foldl_cons, hd, ih, List.filter_cons]

theorem stack_outer (h : Heap) (displs : List Ptr) (order : List String) (acc : List Ptr) :
    order.foldl
        (fun preferredDispls name =>
          displs.foldl
            (fun preferredDispls displ =>
              if strcasecmp name (h displ).name = 0 then displ :: preferredDispls
              else preferredDispls)
            preferredDispls)
        acc =
      (order.flatMap fun name =>
          displs.filter fun p => decide (strcasecmp name (h p).name = 0)).reverse ++ acc := by
  induction order generalizing acc with
  | nil => rfl
  | cons n rest ih =>
    rw [List.foldl_cons, stack_inner (fun p => strcasecmp n (h p).name = 0), ih]
    simp [List.flatMap_cons]

theorem stack_eq (h : Heap) (displs : List Ptr) (order : List String) :
    orderDispls.stack h displs order =
      (order.flatMap fun name =>
          displs.filter fun p => decide (strcasecmp name (h p).name = 0)).reverse := by
  unfold orderDispls.stack
  rw [stack_outer]; simp

theorem orderDispls_eq_foldr (h : Heap) (displs : List Ptr) (order : List String) :
    orderDispls h displs order =
      (order.flatMap fun name =>
          displs.filter fun p => decide (strcasecmp name (h p).name = 0)).foldr
        (fun preferredDispl displs => preferredDispl :: listRemove displs preferredDispl)
        displs := by
  unfold orderDispls
  rw [stack_eq, List.foldl_reverse]

theorem front_nodup (L displs : List Ptr) (hL : L.Nodup) :
    L.foldr (fun preferredDispl displs => preferredDispl :: listRemove displs preferredDispl)
        displs =
      L ++ displs.filter (fun p => decide (p ∉ L)) := by
  induction L with
  | nil => simp
  | cons a L ih =>
    have ha : a ∉ L := (List.nodup_cons.mp hL).1
    rw [List.foldr_cons, ih (List.nodup_cons.mp hL).2]
    unfold listRemove
    rw [List.filter_append, List.filter_filter]
    have h1 : L.filter (fun p => p != a) = L := by
      rw [List.filter_eq_self]
      intro x hx
      have : x ≠ a := fun e => ha (e ▸ hx)
      simpa using this
    rw [h1]
    simp only [List.cons_append, List.cons.injEq, true_and, List.append_cancel_left_eq]
    apply List.filter_congr
    intro x _
    by_cases hxa : x = a <;> simp [hxa, ha]

theorem filter_eq_find_toList {α : Type} (P : α → Bool) (l : List α)
    (hl : l.Pairwise (fun a b => ¬ (P a = true ∧ P b = true))) :
    l.filter P = (l.find? P).toList := by
  induction l with
  | nil => rfl
  | cons a rest ih =>
    rw [List.pairwise_cons] at hl
    cases hP : P a with
    | true =>
      have : rest.filter P = [] := by
        rw [List.filter_eq_nil_iff]
        intro x hx hpx
        exact hl.1 x hx ⟨hP, hpx⟩
      simp [List.filter_cons, List.find?_cons, hP, this]
    | false =>
      simp [List.filter_cons, List.find?_cons, hP, ih hl.2]

theorem flatMap_toList {α β : Type} (f : α → Option β) (l : List α) :
    (l.flatMap fun x => (f x).toList) = l.filterMap f := by
  induction l with
  | nil => rfl
  | cons a rest ih =>
    cases hf : f a <;> simp [List.flatMap_cons, List.filterMap_cons, hf, ih]

/-- C6: for displays whose names are pairwise different under `strcasecmp` (so no display
occurs twice) and priority names pairwise different under `strcasecmp`, `orderDispls` yields
the displays named by the priority list, in priority order, followed by the displays no
priority name matches, in their original order. -/
theorem orderDispls_priority (h : Heap) (displs : List Ptr) (order : List String)
    (hnames : displs.Pairwise (fun p q => strcasecmp (h p).name (h q).name ≠ 0))
    (horder : order.Pairwise (fun a b => strcasecmp a b ≠ 0)) :
    orderDispls h displs order =
      order.filterMap
          (fun name => displs.find? (fun p => decide (strcasecmp name (h p).name = 0))) ++
        displs.filter
          (fun p => order.all (fun name => decide (strcasecmp name (h p).name ≠ 0))) := by
  have hnodup : displs.Nodup := by
    refine hnames.imp ?_
    intro p q hpq e
    subst e
    exact hpq ((strcasecmp_eq_zero _ _).mpr rfl)
  have hone : ∀ name : String,
      displs.filter (fun p => decide (strcasecmp name (h p).name = 0)) =
        (displs.find? (fun p => decide (strcasecmp name (h p).name = 0))).toList := by
    intro name
    apply filter_eq_find_toList
    refine hnames.imp ?_
    intro p q hpq hboth
    simp only [decide_eq_true_eq, strcasecmp_eq_zero] at hboth
    exact hpq ((strcasecmp_eq_zero _ _).mpr (hboth.1.symm.trans hboth.2))
  have hL : (order.flatMap fun name =>
      displs.filter fun p => decide (strcasecmp name (h p).name = 0)).Nodup := by
    rw [List.nodup_flatMap]
    refine ⟨fun name _ => hnodup.filter _, horder.imp ?_⟩
    intro a b hab
    show List.Disjoint _ _
    intro p hpa hpb
    simp only [List.mem_filter, decide_eq_true_eq, strcasecmp_eq_zero] at hpa hpb
    exact hab ((strcasecmp_eq_zero _ _).mpr (hpa.2.trans hpb.2.symm))
  rw [orderDispls_eq_foldr, front_nodup _ _ hL]
  congr 1
  · simp only [hone]
    exact flatMap_toList _ _
  · apply List.filter_congr
    intro p hp
    rw [Bool.eq_iff_iff]
    simp [List.mem_flatMap, List.mem_filter, hp]

/-- The displays A, B, C in each of their six orders, with priority c, A, come out as
C, A, B. -/
theorem orderDispls_priority_witness :
    orderDispls activeHeap [0, 1, 2] ["c", "A"] = [2, 0, 1] ∧
      orderDispls activeHeap [0, 2, 1] ["c", "A"] = [2, 0, 1] ∧
      orderDispls activeHeap [1, 0, 2] ["c", "A"] = [2, 0, 1] ∧
      orderDispls activeHeap [1, 2, 0] ["c", "A"] = [2, 0, 1] ∧
      orderDispls activeHeap [2, 0, 1] ["c", "A"] = [2, 0, 1] ∧
      orderDispls activeHeap [2, 1, 0] ["c", "A"] = [2, 0, 1] :=
  ⟨(orderDispls_priority activeHeap [0, 1, 2] ["c", "A"] (by decide) (by decide)).trans
      (by decide),
    (orderDispls_priority activeHeap [0, 2, 1] ["c", "A"] (by decide) (by decide)).trans
      (by decide),
    (orderDispls_priority activeHeap [1, 0, 2] ["c", "A"] (by decide) (by decide)).trans
      (by decide),
    (orderDispls_priority activeHeap [1, 2, 0] ["c", "A"] (by decide) (by decide)).trans
      (by decide),
    (orderDispls_priority activeHeap [2, 0, 1] ["c", "A"] (by decide) (by decide)).trans
      (by decide),
    (orderDispls_priority activeHeap [2, 1, 0] ["c", "A"] (by decide) (by decide)).trans
      (by decide)⟩

/-! ## Activation -/

theorem activateDispls_skip (primary : String) (sdd : String → Bool) (p : Ptr)
    (rest : List Ptr) (w : World) (hne : eligible sdd (w.heap p) = false) :
    activateDispls primary sdd (p :: rest) w = activateDispls primary sdd rest w := by
  unfold eligible at hne
  rw [activateDispls]
  by_cases h1 : sdd (w.heap p).name = true
  · simp [h1]
  · simp only [h1, Bool.false_eq_true, if_false]
    have h2 : (w.heap p).state ≠ .active ∧ (w.heap p).state ≠ .connected := by
      simp [h1] at hne
      exact hne
    simp [h2]

theorem activateDispls_take (primary : String) (sdd : String → Bool) (p : Ptr)
    (rest : List Ptr) (w : World) (he : eligible sdd (w.heap p) = true)
    (ho : (w.heap p).optimalMode ≠ none) :
    activateDispls primary sdd (p :: rest) w =
      activateDispls primary sdd rest
        { heap := w.heap.set p { w.heap p with desiredActive := true },
          desiredPrimary :=
            if namedPrimary primary (w.heap p) = true then some p
            else match w.desiredPrimary with
              | some b => some b
              | none => some p,
          desiredDpi := w.desiredDpi } := by
  unfold eligible at he
  simp only [Bool.and_eq_true, Bool.not_eq_true', decide_eq_true_eq] at he
  rw [activateDispls]
  have h1 : sdd (w.heap p).name = false := he.1
  have h2 : ¬ ((w.heap p).state ≠ .active ∧ (w.heap p).state ≠ .connected) := by
    rcases he.2 with h | h <;> simp [h]
  have h3 : ¬ ((true = true) ∧ (w.heap p).optimalMode.isNone = true) := by
    cases hopt : (w.heap p).optimalMode with
    | none => exact absurd hopt ho
    | some m => simp
  have hnp : namedPrimary primary (w.heap p) = true ↔
      (primary.isEmpty = false ∧ strcasecmp primary (w.heap p).name = 0) := by
    simp [namedPrimary]
  have hset : (w.heap.set p { w.heap p with desiredActive := true } p).name = (w.heap p).name := by
    simp [Heap.set]
  simp only [h1, Bool.false_eq_true, if_false, h2, Displ.setDesiredActive, h3, hnp]
  by_cases hc : primary.isEmpty = false ∧ strcasecmp primary (w.heap p).name = 0
  · cases hprim : w.desiredPrimary <;> simp [hc, hset, ho]
  · cases hprim : w.desiredPrimary <;> simp [hc, hset, ho]

theorem activateDispls_throw (primary : String) (sdd : String → Bool) (p : Ptr)
    (rest : List Ptr) (w : World) (he : eligible sdd (w.heap p) = true)
    (ho : (w.heap p).optimalMode = none) :
    activateDispls primary sdd (p :: rest) w =
      .threw (.invalid_argument
        ("Displ '" ++ (w.heap p).name ++ "' cannot set desiredActive without optimalMode")) w := by
  unfold eligible at he
  simp only [Bool.and_eq_true, Bool.not_eq_true', decide_eq_true_eq] at he
  rw [activateDispls]
  have h1 : sdd (w.heap p).name = false := he.1
  have h2 : ¬ ((w.heap p).state ≠ .active ∧ (w.heap p).state ≠ .connected) := by
    rcases he.2 with h | h <;> simp [h]
  simp [h1, h2, Displ.setDesiredActive, ho]

theorem eligible_mark (sdd : String → Bool) (h : Heap) (p q : Ptr) :
    eligible sdd (h.set p { h p with desiredActive := true } q) = eligible sdd (h q) := by
  unfold Heap.set eligible
  by_cases hq : q = p <;> simp [hq]

theorem namedPrimary_mark (primary : String) (h : Heap) (p q : Ptr) :
    namedPrimary primary (h.set p { h p with desiredActive := true } q) =
      namedPrimary primary (h q) := by
  unfold Heap.set namedPrimary
  by_cases hq : q = p <;> simp [hq]

theorem optimalMode_mark (h : Heap) (p q : Ptr) :
    (h.set p { h p with desiredActive := true } q).optimalMode = (h q).optimalMode := by
  unfold Heap.set
  by_cases hq : q = p <;> simp [hq]

theorem primaryAfter_mark (primary : String) (sdd : String → Bool) (h : Heap) (p : Ptr)
    (displs : List Ptr) (before : Option Ptr) :
    primaryAfter primary sdd (h.set p { h p with desiredActive := true }) displs before =
      primaryAfter primary sdd h displs before := by
  unfold primaryAfter
  simp only [eligible_mark, namedPrimary_mark]

theorem heapAfterActivate_skip (sdd : String → Bool) (h : Heap) (p : Ptr) (rest : List Ptr)
    (hne : eligible sdd (h p) = false) :
    heapAfterActivate sdd h (p :: rest) = heapAfterActivate sdd h rest := by
  funext q
  unfold heapAfterActivate
  by_cases hq : q = p
  · subst hq; simp [hne]
  · simp [hq]

theorem heapAfterActivate_take (sdd : String → Bool) (h : Heap) (p : Ptr) (rest : List Ptr)
    (he : eligible sdd (h p) = true) :
    heapAfterActivate sdd (h.set p { h p with desiredActive := true }) rest =
      heapAfterActivate sdd h (p :: rest) := by
  funext q
  unfold heapAfterActivate
  rw [eligible_mark]
  by_cases hq : q = p
  · subst hq
    by_cases hr : q ∈ rest <;> simp [hr, he, Heap.set]
  · simp [hq, Heap.set]

theorem primaryAfter_skip (primary : String) (sdd : String → Bool) (h : Heap) (p : Ptr)
    (rest : List Ptr) (before : Option Ptr) (hne : eligible sdd (h p) = false) :
    primaryAfter primary sdd h (p :: rest) before = primaryAfter primary sdd h rest before := by
  unfold primaryAfter
  simp [List.filter_cons, List.find?_cons, hne]

theorem primaryAfter_take (primary : String) (sdd : String → Bool) (h : Heap) (p : Ptr)
    (rest : List Ptr) (before : Option Ptr) (he : eligible sdd (h p) = true) :
    primaryAfter primary sdd h rest
        (if namedPrimary primary (h p) = true then some p
          else match before with
            | some b => some b
            | none => some p) =
      primaryAfter primary sdd h (p :: rest) before := by
  unfold primaryAfter
  cases hL : (rest.filter fun p => eligible sdd (h p) && namedPrimary primary (h p)) with
  | nil =>
    by_cases hn : namedPrimary primary (h p) = true
    · simp [List.filter_cons, hL, he, hn]
    · cases before <;> simp [List.filter_cons, List.find?_cons, hL, he, hn]
  | cons a L =>
    have hlast : ∀ b : Ptr, (b :: a :: L).getLast? = (a :: L).getLast? := fun b =>
      List.getLast?_cons_cons
    obtain ⟨x, hx⟩ : ∃ x, (a :: L).getLast? = some x :=
      ⟨_, List.getLast?_eq_getLast _ (List.cons_ne_nil a L)⟩
    by_cases hn : namedPrimary primary (h p) = true
    · simp [List.filter_cons, hL, he, hn, hlast, hx]
    · simp [List.filter_cons, hL, he, hn, hx]

theorem activateDispls_returned (primary : String) (sdd : String → Bool) (displs : List Ptr)
    (w : World)
    (hall : ∀ p ∈ displs, eligible sdd (w.heap p) = true → (w.heap p).optimalMode ≠ none) :
    activateDispls primary sdd displs w =
      .returned
        { heap := heapAfterActivate sdd w.heap displs,
          desiredPrimary := primaryAfter primary sdd w.heap displs w.desiredPrimary,
          desiredDpi := w.desiredDpi } := by
  induction displs generalizing w with
  | nil =>
    have h1 : heapAfterActivate sdd w.heap [] = w.heap := by
      funext q; simp [heapAfterActivate]
    have h2 : primaryAfter primary sdd w.heap [] w.desiredPrimary = w.desiredPrimary := by
      unfold primaryAfter; cases w.desiredPrimary <;> simp
    rw [activateDispls, h1, h2]
  | cons p rest ih =>
    cases he : eligible sdd (w.heap p) with
    | false =>
      rw [activateDispls_skip _ _ _ _ _ he, ih w (fun q hq => hall q (by simp [hq])),
        heapAfterActivate_skip _ _ _ _ he, primaryAfter_skip _ _ _ _ _ _ he]
    | true =>
      rw [activateDispls_take _ _ _ _ _ he (hall p (by simp) he), ih]
      · simp only [heapAfterActivate_take _ _ _ _ he, primaryAfter_mark,
          primaryAfter_take _ _ _ _ _ _ he]
      · intro q hq
        simp only [eligible_mark, optimalMode_mark]
        exact hall q (by simp [hq])

theorem activateDispls_threw (primary : String) (sdd : String → Bool) (displs : List Ptr)
    (w : World)
    (hex : ∃ p ∈ displs, eligible sdd (w.heap p) = true ∧ (w.heap p).optimalMode = none) :
    ∃ what w1, activateDispls primary sdd displs w = .threw (.invalid_argument what) w1 := by
  induction displs generalizing w with
  | nil => simp at hex
  | cons p rest ih =>
    cases he : eligible sdd (w.heap p) with
    | false =>
      rw [activateDispls_skip _ _ _ _ _ he]
      apply ih
      obtain ⟨q, hq, hqe, hqo⟩ := hex
      rcases List.mem_cons.mp hq with rfl | hq
      · rw [he] at hqe; cases hqe
      · exact ⟨q, hq, hqe, hqo⟩
    | true =>
      cases ho : (w.heap p).optimalMode with
      | none => exact ⟨_, _, activateDispls_throw _ _ _ _ _ he ho⟩
      | some m =>
        rw [activateDispls_take _ _ _ _ _ he (by simp [ho])]
        apply ih
        obtain ⟨q, hq, hqe, hqo⟩ := hex
        rcases List.mem_cons.mp hq with rfl | hq
        · rw [ho] at hqo; cases hqo
        · exact ⟨q, hq, by simpa only [eligible_mark] using hqe,
            by simpa only [optimalMode_mark] using hqo⟩

theorem activateDispls_returned_inv (primary : String) (sdd : String → Bool)
    (displs : List Ptr) (w w1 : World)
    (hret : activateDispls primary sdd displs w = .returned w1) :
    (∀ p ∈ displs, eligible sdd (w.heap p) = true → (w.heap p).optimalMode ≠ none) ∧
      w1 = { heap := heapAfterActivate sdd w.heap displs,
             desiredPrimary := primaryAfter primary sdd w.heap displs w.desiredPrimary,
             desiredDpi := w.desiredDpi } := by
  by_cases hall : ∀ p ∈ displs, eligible sdd (w.heap p) = true → (w.heap p).optimalMode ≠ none
  · refine ⟨hall, ?_⟩
    rw [activateDispls_returned primary sdd displs w hall] at hret
    cases hret
    rfl
  · exfalso
    push_neg at hall
    obtain ⟨p, hp, he, ho⟩ := hall
    obtain ⟨what, w2, hthrew⟩ := activateDispls_threw primary sdd displs w ⟨p, hp, he, ho⟩
    rw [hthrew] at hret
    cases hret

/-- C7: when every display of the list starts with `desiredActive = false` and
`activateDispls` returns normally, a display of the list ends with `desiredActive = true`
exactly when the policy does not disable its name and its state is active or connected. -/
theorem activateDispls_activation_set (primary : String)
    (shouldDisableDisplay : String → Bool) (displs : List Ptr) (w w1 : World)
    (hstart : ∀ p ∈ displs, (w.heap p).desiredActive = false)
    (hret : activateDispls primary shouldDisableDisplay displs w = .returned w1) :
    ∀ p ∈ displs,
      ((w1.heap p).desiredActive = true ↔
        (shouldDisableDisplay (w.heap p).name = false ∧
          ((w.heap p).state = .active ∨ (w.heap p).state = .connected))) := by
  intro p hp
  obtain ⟨_, hw1⟩ := activateDispls_returned_inv _ _ _ _ _ hret
  subst hw1
  have hs := hstart p hp
  by_cases he : eligible shouldDisableDisplay (w.heap p) = true
  · have he2 := he
    simp only [eligible, Bool.and_eq_true, Bool.not_eq_true', decide_eq_true_eq] at he2
    simp [heapAfterActivate, hp, he, he2]
  · have he2 := he
    simp only [eligible, Bool.and_eq_true, Bool.not_eq_true', decide_eq_true_eq] at he2
    simp only [heapAfterActivate, hp, he, and_false, if_false, hs, Bool.false_eq_true, false_iff]
    exact he2

/-- Of the four sample displays the active and the connected one are marked; the one the
policy disables and the disconnected one are not. -/
theorem activateDispls_activation_set_witness :
    ((activateDispls "hdmi-1" samplePolicy [0, 1, 2, 3] startWorld).state.heap 0).desiredActive
        = true ∧
      ((activateDispls "hdmi-1" samplePolicy [0, 1, 2, 3] startWorld).state.heap 1).desiredActive
        = true ∧
      ¬ ((activateDispls "hdmi-1" samplePolicy [0, 1, 2, 3] startWorld).state.heap
          2).desiredActive = true ∧
      ¬ ((activateDispls "hdmi-1" samplePolicy [0, 1, 2, 3] startWorld).state.heap
          3).desiredActive = true := by
  have h := activateDispls_activation_set "hdmi-1" samplePolicy [0, 1, 2, 3] startWorld
    (activateDispls "hdmi-1" samplePolicy [0, 1, 2, 3] startWorld).state (by decide)
    (Outcome.eq_returned _ (by decide))
  exact ⟨(h 0 (by decide)).mpr (by decide), (h 1 (by decide)).mpr (by decide),
    fun c => absurd ((h 2 (by decide)).mp c) (by decide),
    fun c => absurd ((h 3 (by decide)).mp c) (by decide)⟩

theorem primaryAfter_unnamed (primary : String) (sdd : String → Bool) (h : Heap)
    (displs : List Ptr)
    (hnomatch : primary.isEmpty = true ∨
      ∀ p ∈ displs, eligible sdd (h p) = true → strcasecmp primary (h p).name ≠ 0) :
    primaryAfter primary sdd h displs none = displs.find? (fun p => eligible sdd (h p)) := by
  have hnil : (displs.filter fun p => eligible sdd (h p) && namedPrimary primary (h p)) = [] := by
    rw [List.filter_eq_nil_iff]
    intro p hp
    rcases hnomatch with hemp | hno
    · simp [namedPrimary, hemp]
    · by_cases he : eligible sdd (h p) = true
      · simp [namedPrimary, hno p hp he]
      · simp [he]
  simp [primaryAfter, hnil]

/-- C8: with no primary chosen before the call and a primary name that is empty or matches
no eligible display of the list, a normal return of `activateDispls` leaves as primary the
first eligible display of the list, none when no display is eligible; and the call does
return normally when every eligible display has an `optimalMode`. -/
theorem activateDispls_default_primary (primary : String)
    (shouldDisableDisplay : String → Bool) (displs : List Ptr) (w : World)
    (hunset : w.desiredPrimary = none)
    (hnomatch : primary.isEmpty = true ∨
      ∀ p ∈ displs, eligible shouldDisableDisplay (w.heap p) = true →
        strcasecmp primary (w.heap p).name ≠ 0) :
    (∀ w1, activateDispls primary shouldDisableDisplay displs w = .returned w1 →
      w1.desiredPrimary = displs.find? (fun p => eligible shouldDisableDisplay (w.heap p))) ∧
    ((∀ p ∈ displs, eligible shouldDisableDisplay (w.heap p) = true →
        (w.heap p).optimalMode ≠ none) →
      ∃ w1, activateDispls primary shouldDisableDisplay displs w = .returned w1) := by
  constructor
  · intro w1 hret
    obtain ⟨_, hw1⟩ := activateDispls_returned_inv _ _ _ _ _ hret
    subst hw1
    simp only [hunset]
    exact primaryAfter_unnamed primary shouldDisableDisplay w.heap displs hnomatch
  · intro hall
    exact ⟨_, activateDispls_returned primary shouldDisableDisplay displs w hall⟩

/-- Without a primary name, or with one that matches nothing, the first eligible display
of the list becomes primary; with no eligible display the primary stays unset. -/
theorem activateDispls_default_primary_witness :
    (activateDispls "" samplePolicy [3, 2, 1, 0] startWorld).state.desiredPrimary = some 1 ∧
      (activateDispls "VGA-1" samplePolicy [3, 2, 1, 0] startWorld).state.desiredPrimary
        = some 1 ∧
      (activateDispls "DP-2" samplePolicy [3, 2] startWorld).state.desiredPrimary = none :=
  ⟨((activateDispls_default_primary "" samplePolicy [3, 2, 1, 0] startWorld rfl
        (Or.inl (by decide))).1 _ (Outcome.eq_returned _ (by decide))).trans (by decide),
    ((activateDispls_default_primary "VGA-1" samplePolicy [3, 2, 1, 0] startWorld rfl
        (Or.inr (by decide))).1 _ (Outcome.eq_returned _ (by decide))).trans (by decide),
    ((activateDispls_default_primary "DP-2" samplePolicy [3, 2] startWorld rfl
        (Or.inr (by decide))).1 _ (Outcome.eq_returned _ (by decide))).trans (by decide)⟩

theorem primaryAfter_named (primary : String) (sdd : String → Bool) (h : Heap)
    (displs : List Ptr) (before : Option Ptr) (hne : primary.isEmpty = false)
    (hmatch : ∃ p ∈ displs, eligible sdd (h p) = true ∧ strcasecmp primary (h p).name = 0) :
    primaryAfter primary sdd h displs before =
      (displs.filter fun p =>
        eligible sdd (h p) && decide (strcasecmp primary (h p).name = 0)).getLast? := by
  have hf : (fun p => eligible sdd (h p) && namedPrimary primary (h p)) =
      (fun p => eligible sdd (h p) && decide (strcasecmp primary (h p).name = 0)) := by
    funext p
    simp [namedPrimary, hne]
  obtain ⟨p, hp, he, hz⟩ := hmatch
  have hmem : p ∈ displs.filter fun p =>
      eligible sdd (h p) && decide (strcasecmp primary (h p).name = 0) := by
    simp [List.mem_filter, hp, he, hz]
  unfold primaryAfter
  rw [hf]
  cases hL : (displs.filter fun p =>
      eligible sdd (h p) && decide (strcasecmp primary (h p).name = 0)) with
  | nil => rw [hL] at hmem; cases hmem
  | cons a L =>
    obtain ⟨x, hx⟩ : ∃ x, (a :: L).getLast? = some x :=
      ⟨_, List.getLast?_eq_getLast _ (List.cons_ne_nil a L)⟩
    simp [hx]

/-- C9: with a non-empty primary name that matches an eligible display of the list, a normal
return of `activateDispls` leaves as primary the last eligible display of the list the name
matches, whatever primary was held before; and the call does return normally when every
eligible display has an `optimalMode`. -/
theorem activateDispls_explicit_primary (primary : String)
    (shouldDisableDisplay : String → Bool) (displs : List Ptr) (w : World)
    (hne : primary.isEmpty = false)
    (hmatch : ∃ p ∈ displs, eligible shouldDisableDisplay (w.heap p) = true ∧
      strcasecmp primary (w.heap p).name = 0) :
    (∀ w1, activateDispls primary shouldDisableDisplay displs w = .returned w1 →
      w1.desiredPrimary =
        (displs.filter fun p =>
          eligible shouldDisableDisplay (w.heap p) &&
            decide (strcasecmp primary (w.heap p).name = 0)).getLast?) ∧
    ((∀ p ∈ displs, eligible shouldDisableDisplay (w.heap p) = true →
        (w.heap p).optimalMode ≠ none) →
      ∃ w1, activateDispls primary shouldDisableDisplay displs w = .returned w1) := by
  constructor
  · intro w1 hret
    obtain ⟨_, hw1⟩ := activateDispls_returned_inv _ _ _ _ _ hret
    subst hw1
    exact primaryAfter_named primary shouldDisableDisplay w.heap displs _ hne hmatch
  · intro hall
    exact ⟨_, activateDispls_returned primary shouldDisableDisplay displs w hall⟩

/-- A named display becomes primary although an earlier eligible display was taken as the
default, and although a primary was held before. -/
theorem activateDispls_explicit_primary_witness :
    (activateDispls "hdmi-1" samplePolicy [0, 1, 2, 3] startWorld).state.desiredPrimary
        = some 1 ∧
      (activateDispls "EDP-1" samplePolicy [1, 0, 2]
          { startWorld with desiredPrimary := some 2 }).state.desiredPrimary = some 0 :=
  ⟨((activateDispls_explicit_primary "hdmi-1" samplePolicy [0, 1, 2, 3] startWorld
        (by decide) ⟨1, by decide, by decide, by decide⟩).1 _
          (Outcome.eq_returned _ (by decide))).trans (by decide),
    ((activateDispls_explicit_primary "EDP-1" samplePolicy [1, 0, 2]
        { startWorld with desiredPrimary := some 2 }
        (by decide) ⟨0, by decide, by decide, by decide⟩).1 _
          (Outcome.eq_returned _ (by decide))).trans (by decide)⟩

/-! ## Left-to-right layout -/

theorem ltr_loop_skip (p : Ptr) (rest : List Ptr) (xpos : Int) (h : Heap)
    (hp : (h p).desiredActive = false) :
    ltrDispls.loop (p :: rest) xpos h = ltrDispls.loop rest xpos h := by
  rw [ltrDispls.loop]; simp [hp]

theorem ltr_loop_take (p : Ptr) (rest : List Ptr) (xpos : Int) (h : Heap) (m : Mode)
    (hp : (h p).desiredActive = true) (ho : (h p).optimalMode = some m)
    (hm : some m ∈ (h p).modes) :
    ltrDispls.loop (p :: rest) xpos h =
      ltrDispls.loop rest (wrapInt (xpos + m.width)) (h.set p (placed (h p) m xpos)) := by
  rw [ltrDispls.loop]
  simp [hp, ho, hm, Displ.setDesiredMode, placed]

theorem ltr_loop_fail (p : Ptr) (rest : List Ptr) (xpos : Int) (h : Heap)
    (hp : (h p).desiredActive = true) (hno : (h p).optimalMode ∉ (h p).modes) :
    ltrDispls.loop (p :: rest) xpos h =
      .defined (.threw (.invalid_argument
        ("Displ '" ++ (h p).name ++ "' cannot set desiredMode which is not present in modes"))
        h) := by
  rw [ltrDispls.loop]
  simp [hp, Displ.setDesiredMode, hno]

theorem ltr_loop_null (p : Ptr) (rest : List Ptr) (xpos : Int) (h : Heap)
    (hp : (h p).desiredActive = true) (ho : (h p).optimalMode = none)
    (hm : none ∈ (h p).modes) :
    ltrDispls.loop (p :: rest) xpos h = .undefined := by
  rw [ltrDispls.loop]
  simp [hp, ho, hm, Displ.setDesiredMode]

theorem placed_active (h : Heap) (p : Ptr) (m : Mode) (x : Int) (q : Ptr) :
    (h.set p (placed (h p) m x) q).desiredActive = (h q).desiredActive := by
  unfold Heap.set placed
  by_cases hq : q = p <;> simp [hq]

theorem placed_optimalMode (h : Heap) (p : Ptr) (m : Mode) (x : Int) (q : Ptr) :
    (h.set p (placed (h p) m x) q).optimalMode = (h q).optimalMode := by
  unfold Heap.set placed
  by_cases hq : q = p <;> simp [hq]

theorem placed_modes (h : Heap) (p : Ptr) (m : Mode) (x : Int) (q : Ptr) :
    (h.set p (placed (h p) m x) q).modes = (h q).modes := by
  unfold Heap.set placed
  by_cases hq : q = p <;> simp [hq]

theorem activeDispls_placed (h : Heap) (p : Ptr) (m : Mode) (x : Int) (displs : List Ptr) :
    activeDispls (h.set p (placed (h p) m x)) displs = activeDispls h displs := by
  unfold activeDispls
  simp only [placed_active]

theorem sumOptimalWidths_placed (h : Heap) (p : Ptr) (m : Mode) (x : Int)
    (displs : List Ptr) :
    sumOptimalWidths (h.set p (placed (h p) m x)) displs = sumOptimalWidths h displs := by
  unfold sumOptimalWidths optimalWidth
  simp only [placed_optimalMode]

theorem ltr_loop_spec (displs : List Ptr) (xpos : Int) (h : Heap)
    (hx : wrapInt xpos = xpos)
    (hopt : ∀ p ∈ displs, (h p).desiredActive = true →
      ∃ m, (h p).optimalMode = some m ∧ some m ∈ (h p).modes) :
    ∃ h1, ltrDispls.loop displs xpos h = .defined (.returned h1) ∧
      (∀ q, q ∉ activeDispls h displs → h1 q = h q) ∧
      ∀ (k : Nat) (p : Ptr), (activeDispls h displs)[k]? = some p →
        p ∉ (activeDispls h displs).drop (k + 1) →
        (h1 p).desiredMode = (h p).optimalMode ∧
          (h1 p).desiredPos =
            some ⟨wrapInt (xpos + sumOptimalWidths h ((activeDispls h displs).take k)),
              0⟩ := by
  induction displs generalizing xpos h with
  | nil =>
    refine ⟨h, rfl, fun _ _ => rfl, ?_⟩
    intro k p hk
    simp [activeDispls] at hk
  | cons p rest ih =>
    cases hp : (h p).desiredActive with
    | false =>
      have hact : activeDispls h (p :: rest) = activeDispls h rest := by
        simp [activeDispls, List.filter_cons, hp]
      rw [ltr_loop_skip p rest xpos h hp]
      rw [hact]
      exact ih xpos h hx (fun q hq => hopt q (by simp [hq]))
    | true =>
      obtain ⟨m, ho, hm⟩ := hopt p (by simp) hp
      have hact : activeDispls h (p :: rest) = p :: activeDispls h rest := by
        simp [activeDispls, List.filter_cons, hp]
      rw [hact]
      rw [ltr_loop_take p rest xpos h m hp ho hm]
      obtain ⟨h1, hret, hframe, hpos⟩ :=
        ih (wrapInt (xpos + m.width)) (h.set p (placed (h p) m xpos)) (wrapInt_idem _)
          (by
            intro q hq
            simp only [placed_active, placed_optimalMode, placed_modes]
            exact hopt q (by simp [hq]))
      simp only [activeDispls_placed, sumOptimalWidths_placed, placed_optimalMode] at hframe hpos
      refine ⟨h1, hret, ?_, ?_⟩
      · intro q hq
        have hqp : q ≠ p := fun e => hq (by simp [e])
        rw [hframe q (fun hin => hq (by simp [hin]))]
        simp [Heap.set, hqp]
      · intro k q hk hlast
        cases k with
        | zero =>
          have hqp : p = q := by simpa using hk
          subst hqp
          have hpn : p ∉ activeDispls h rest := by simpa using hlast
          have hp1 : h1 p = placed (h p) m xpos := by
            rw [hframe p hpn]; simp [Heap.set]
          simp [hp1, placed, ho, sumOptimalWidths, hx]
        | succ k =>
          have hk1 : (activeDispls h rest)[k]? = some q := by simpa using hk
          have hl1 : q ∉ (activeDispls h rest).drop (k + 1) := by simpa using hlast
          have := hpos k q hk1 hl1
          refine ⟨this.1, ?_⟩
          rw [this.2]
          have hw : optimalWidth (h p) = m.width := by simp [optimalWidth, ho]
          simp [sumOptimalWidths, hw, wrapInt_add, add_assoc]

/-- C3, amended: for a list in which every active display has an `optimalMode` among its
modes, `ltrDispls` returns normally and the `k`-th active display in list order, read at its
last place in the list, has `desiredMode` its `optimalMode` and `desiredPos`, at height 0,
the sum of the optimal widths of the active displays before it reduced to the range of a
32-bit `int`: the sum itself whenever it lies in that range. -/
theorem ltrDispls_running_sums (displs : List Ptr) (h : Heap)
    (hopt : ∀ p ∈ displs, (h p).desiredActive = true →
      ∃ m, (h p).optimalMode = some m ∧ some m ∈ (h p).modes) :
    ∃ h1, ltrDispls displs h = .defined (.returned h1) ∧
      ∀ (k : Nat) (p : Ptr), (activeDispls h displs)[k]? = some p →
        p ∉ (activeDispls h displs).drop (k + 1) →
        (h1 p).desiredMode = (h p).optimalMode ∧
          (h1 p).desiredPos =
            some ⟨wrapInt (sumOptimalWidths h ((activeDispls h displs).take k)), 0⟩ ∧
          (-2147483648 ≤ sumOptimalWidths h ((activeDispls h displs).take k) →
            sumOptimalWidths h ((activeDispls h displs).take k) < 2147483648 →
            (h1 p).desiredPos =
              some ⟨sumOptimalWidths h ((activeDispls h displs).take k), 0⟩) := by
  obtain ⟨h1, hret, _, hpos⟩ := ltr_loop_spec displs 0 h (by decide) hopt
  refine ⟨h1, hret, ?_⟩
  intro k p hk hlast
  have := hpos k p hk hlast
  simp only [zero_add] at this
  refine ⟨this.1, this.2, ?_⟩
  intro h0 h1
  rw [this.2, wrapInt_of_fits _ h0 h1]

/-- Three active displays of widths 1920, 1280 and 1920 around an inactive one are placed at
x = 0, 1920 and 3200. -/
theorem ltrDispls_running_sums_witness :
    ∃ h1, ltrDispls [0, 3, 1, 2] activeHeap = .defined (.returned h1) ∧
      (h1 0).desiredPos = some ⟨0, 0⟩ ∧
      (h1 1).desiredPos = some ⟨1920, 0⟩ ∧
      (h1 2).desiredPos = some ⟨3200, 0⟩ ∧
      (h1 2).desiredMode = some ⟨4, 1920, 1080, 60⟩ := by
  obtain ⟨h1, hret, hpos⟩ :=
    ltrDispls_running_sums [0, 3, 1, 2] activeHeap (by decide)
  have a0 := hpos 0 0 (by decide) (by decide)
  have a1 := hpos 1 1 (by decide) (by decide)
  have a2 := hpos 2 2 (by decide) (by decide)
  exact ⟨h1, hret, (a0.2.2 (by decide) (by decide)).trans (by decide),
    (a1.2.2 (by decide) (by decide)).trans (by decide),
    (a2.2.2 (by decide) (by decide)).trans (by decide), a2.1.trans (by decide)⟩

/-- The running-sums property fails on three distinct active displays, each 1073741824
wide: the widths before the third sum to 2147483648, and `ltrDispls` puts it at
x = -2147483648. -/
theorem ltrDispls_running_sums_overflow : ¬ LtrRunningSums [0, 1, 2] wideHeap := by
  intro hsums
  obtain ⟨h1, hret, hpos⟩ := hsums (by decide)
  have h2 := (hpos 2 2 (by decide) (by decide)).2
  have hrun : (ltrDispls [0, 1, 2] wideHeap).result.map
      (fun o => (o.state 2).desiredPos) = some (some ⟨-2147483648, 0⟩) := by decide
  rw [hret] at hrun
  simp only [Run.result, Option.map_some', Outcome.state, Option.some.injEq] at hrun
  rw [hrun] at h2
  exact absurd h2 (by decide)

/-! ## Mirror layout -/

theorem findMode_defined (c : Option Mode) (modes : List (Option Mode)) (r : Option Mode)
    (h : mirrorDispls.findMode c modes = .defined r) :
    modes.find? (sameSize c) = r.map some := by
  induction modes with
  | nil =>
    simp only [mirrorDispls.findMode, Run.defined.injEq] at h
    subst h
    rfl
  | cons a rest ih =>
    cases a with
    | none => simp [mirrorDispls.findMode] at h
    | some m =>
      cases c with
      | none => simp [mirrorDispls.findMode] at h
      | some pm =>
        by_cases hc : m.width = pm.width ∧ m.height = pm.height
        · simp only [mirrorDispls.findMode, if_pos hc, Run.defined.injEq] at h
          subst h
          simp [List.find?_cons, sameSize, hc]
        · simp only [mirrorDispls.findMode, if_neg hc] at h
          have hs : sameSize (some pm) (some m) = false := by
            simp only [sameSize]; exact decide_eq_false hc
          rw [List.find?_cons, hs]
          exact ih h

theorem findMode_total (pm : Mode) (modes : List (Option Mode)) (hn : none ∉ modes) :
    ∃ r, mirrorDispls.findMode (some pm) modes = .defined r := by
  induction modes with
  | nil => exact ⟨none, rfl⟩
  | cons a rest ih =>
    cases a with
    | none => exact absurd (List.mem_cons_self _ _) hn
    | some m =>
      by_cases hc : m.width = pm.width ∧ m.height = pm.height
      · exact ⟨some m, by simp only [mirrorDispls.findMode, if_pos hc]⟩
      · simp only [mirrorDispls.findMode, if_neg hc]
        exact ih (fun hin => hn (List.mem_cons_of_mem _ hin))

theorem SameButLayout.refl (h : Heap) : SameButLayout h h := fun _ => rfl

theorem SameButLayout.trans {h h1 h2 : Heap} (h01 : SameButLayout h h1)
    (h12 : SameButLayout h1 h2) : SameButLayout h h2 := by
  intro q
  have a := h01 q
  have b := h12 q
  rw [b, a]

theorem SameButLayout.modes {h h1 : Heap} (hs : SameButLayout h h1) (q : Ptr) :
    (h1 q).modes = (h q).modes := by
  rw [hs q]

theorem SameButLayout.desiredActive {h h1 : Heap} (hs : SameButLayout h h1) (q : Ptr) :
    (h1 q).desiredActive = (h q).desiredActive := by
  rw [hs q]

theorem SameButLayout.set_mirrored (h : Heap) (p : Ptr) (m : Mode) :
    SameButLayout h (h.set p (mirrored (h p) m)) := by
  intro q
  unfold Heap.set mirrored
  by_cases hq : q = p
  · subst hq; simp
  · simp [hq]

theorem commonSize_congr {h h1 : Heap} (hs : SameButLayout h h1) (displs : List Ptr)
    (c : Option Mode) : commonSize h1 displs c = commonSize h displs c := by
  unfold commonSize
  simp only [hs.modes, hs.desiredActive]

theorem attempt_skip (c : Option Mode) (p : Ptr) (rest : List Ptr) (b : Bool) (h : Heap)
    (hp : (h p).desiredActive = false) :
    mirrorDispls.attempt c (p :: rest) b h = mirrorDispls.attempt c rest b h := by
  rw [mirrorDispls.attempt]; simp [hp]

theorem attempt_null (c : Option Mode) (p : Ptr) (rest : List Ptr) (b : Bool) (h : Heap)
    (hp : (h p).desiredActive = true)
    (hf : mirrorDispls.findMode c (h p).modes = .undefined) :
    mirrorDispls.attempt c (p :: rest) b h = .undefined := by
  rw [mirrorDispls.attempt]; simp [hp, hf]

theorem attempt_unmatched (c : Option Mode) (p : Ptr) (rest : List Ptr) (h : Heap)
    (r : Option Mode) (hp : (h p).desiredActive = true)
    (hf : mirrorDispls.findMode c (h p).modes = .defined r) :
    mirrorDispls.attempt c (p :: rest) false h = mirrorDispls.attempt c rest false h := by
  rw [mirrorDispls.attempt]; simp [hp, hf]

theorem attempt_miss (c : Option Mode) (p : Ptr) (rest : List Ptr) (h : Heap)
    (hp : (h p).desiredActive = true)
    (hf : mirrorDispls.findMode c (h p).modes = .defined none) :
    mirrorDispls.attempt c (p :: rest) true h = mirrorDispls.attempt c rest false h := by
  rw [mirrorDispls.attempt]; simp [hp, hf]

theorem attempt_hit (c : Option Mode) (p : Ptr) (rest : List Ptr) (h : Heap) (m : Mode)
    (hp : (h p).desiredActive = true)
    (hf : mirrorDispls.findMode c (h p).modes = .defined (some m)) :
    mirrorDispls.attempt c (p :: rest) true h =
      mirrorDispls.attempt c rest true (h.set p (mirrored (h p) m)) := by
  have hm : some m ∈ (h p).modes :=
    List.mem_of_find?_eq_some (findMode_defined c _ _ hf)
  rw [mirrorDispls.attempt]
  simp [hp, hf, Displ.setDesiredMode, hm, mirrored]

theorem attempt_false (c : Option Mode) (displs : List Ptr) (h : Heap)
    (o : Outcome (Bool × Heap))
    (ho : mirrorDispls.attempt c displs false h = .defined o) :
    o = .returned (false, h) := by
  induction displs with
  | nil =>
    simp only [mirrorDispls.attempt, Run.defined.injEq] at ho
    exact ho.symm
  | cons p rest ih =>
    cases hp : (h p).desiredActive with
    | false =>
      rw [attempt_skip c p rest false h hp] at ho
      exact ih ho
    | true =>
      cases hf : mirrorDispls.findMode c (h p).modes with
      | undefined => rw [attempt_null c p rest false h hp hf] at ho; cases ho
      | defined r =>
        rw [attempt_unmatched c p rest h r hp hf] at ho
        exact ih ho

theorem attempt_spec (c : Option Mode) (displs : List Ptr) (h : Heap)
    (o : Outcome (Bool × Heap))
    (ho : mirrorDispls.attempt c displs true h = .defined o) :
    ∃ b h1, o = .returned (b, h1) ∧
      SameButLayout h h1 ∧
      (∀ q, (q ∉ displs ∨ (h q).desiredActive = false) → h1 q = h q) ∧
      (b = commonSize h displs c) ∧
      (b = true → ∀ p ∈ displs, (h p).desiredActive = true →
        (h1 p).desiredPos = some ⟨0, 0⟩ ∧
          (h p).modes.find? (sameSize c) = some (h1 p).desiredMode) := by
  induction displs generalizing h with
  | nil =>
    simp only [mirrorDispls.attempt, Run.defined.injEq] at ho
    exact ⟨true, h, ho.symm, SameButLayout.refl h, fun _ _ => rfl, by simp [commonSize],
      by simp⟩
  | cons p rest ih =>
    cases hp : (h p).desiredActive with
    | false =>
      rw [attempt_skip c p rest true h hp] at ho
      obtain ⟨b, h1, hret, hs, hframe, hb, hset⟩ := ih h ho
      refine ⟨b, h1, hret, hs, ?_, ?_, ?_⟩
      · intro q hq
        apply hframe
        rcases hq with hq | hq
        · left; exact fun hin => hq (by simp [hin])
        · right; exact hq
      · rw [hb]; simp [commonSize, hp]
      · intro hbt q hq hqa
        rcases List.mem_cons.mp hq with rfl | hq
        · rw [hp] at hqa; cases hqa
        · exact hset hbt q hq hqa
    | true =>
      cases hf : mirrorDispls.findMode c (h p).modes with
      | undefined => rw [attempt_null c p rest true h hp hf] at ho; cases ho
      | defined r =>
        have hfind := findMode_defined c _ _ hf
        cases r with
        | none =>
          rw [attempt_miss c p rest h hp hf] at ho
          have := attempt_false c rest h o ho
          refine ⟨false, h, this, SameButLayout.refl h, fun _ _ => rfl, ?_, by simp⟩
          have hany : (h p).modes.any (sameSize c) = false := by
            simp only [Option.map_none'] at hfind
            rw [List.find?_eq_none] at hfind
            rw [List.any_eq_false]
            exact hfind
          simp [commonSize, hp, hany]
        | some m =>
          simp only [Option.map_some'] at hfind
          rw [attempt_hit c p rest h m hp hf] at ho
          have hs0 := SameButLayout.set_mirrored h p m
          obtain ⟨b, h1, hret, hs, hframe, hb, hset⟩ := ih (h.set p (mirrored (h p) m)) ho
          refine ⟨b, h1, hret, hs0.trans hs, ?_, ?_, ?_⟩
          · intro q hq
            have hqp : q ≠ p := by
              rintro rfl
              rcases hq with hq | hq
              · exact hq (by simp)
              · rw [hp] at hq; cases hq
            rw [hframe q ?_]
            · simp [Heap.set, hqp]
            · rcases hq with hq | hq
              · left; exact fun hin => hq (by simp [hin])
              · right; rw [hs0.desiredActive]; exact hq
          · rw [hb, commonSize_congr hs0]
            have hany : (h p).modes.any (sameSize c) = true := by
              rw [List.any_eq_true]
              exact ⟨some m, List.mem_of_find?_eq_some hfind, List.find?_some hfind⟩
            simp [commonSize, hp, hany]
          · intro hbt q hq hqa
            by_cases hqr : q ∈ rest
            · have := hset hbt q hqr (by rw [hs0.desiredActive]; exact hqa)
              rw [hs0.modes] at this
              exact this
            · have hqp : q = p := by
                rcases List.mem_cons.mp hq with e | e
                · exact e
                · exact absurd e hqr
              subst hqp
              rw [hframe q (Or.inl hqr)]
              simp [Heap.set, mirrored, hfind]

theorem attempt_total (pm : Mode) (displs : List Ptr) (b : Bool) (h : Heap)
    (hn : ∀ p ∈ displs, (h p).desiredActive = true → none ∉ (h p).modes) :
    ∃ o, mirrorDispls.attempt (some pm) displs b h = .defined o := by
  induction displs generalizing b h with
  | nil => exact ⟨_, rfl⟩
  | cons p rest ih =>
    cases hp : (h p).desiredActive with
    | false =>
      rw [attempt_skip _ p rest b h hp]
      exact ih b h (fun q hq => hn q (by simp [hq]))
    | true =>
      obtain ⟨r, hf⟩ := findMode_total pm (h p).modes (hn p (by simp) hp)
      cases b with
      | false =>
        rw [attempt_unmatched _ p rest h r hp hf]
        exact ih false h (fun q hq => hn q (by simp [hq]))
      | true =>
        cases r with
        | none =>
          rw [attempt_miss _ p rest h hp hf]
          exact ih false h (fun q hq => hn q (by simp [hq]))
        | some m =>
          rw [attempt_hit _ p rest h m hp hf]
          have hs0 := SameButLayout.set_mirrored h p m
          apply ih
          intro q hq hqa
          rw [hs0.modes]
          rw [hs0.desiredActive] at hqa
          exact hn q (by simp [hq]) hqa

theorem candidates_found (displs : List Ptr) (cs : List (Option Mode)) (h : Heap)
    (c0 : Option Mode) (hc : cs.find? (commonSize h displs) = some c0)
    (o : Outcome Heap) (ho : mirrorDispls.candidates displs cs h = .defined o) :
    ∃ h1, o = .returned h1 ∧ SameButLayout h h1 ∧
      ∀ p ∈ displs, (h p).desiredActive = true →
        (h1 p).desiredPos = some ⟨0, 0⟩ ∧
          (h p).modes.find? (sameSize c0) = some (h1 p).desiredMode := by
  induction cs generalizing h with
  | nil => simp at hc
  | cons c rest ih =>
    rw [mirrorDispls.candidates] at ho
    cases hat : mirrorDispls.attempt c displs true h with
    | undefined => rw [hat] at ho; cases ho
    | defined oa =>
      obtain ⟨b, h1, rfl, hs, _, hb, hset⟩ := attempt_spec c displs h oa hat
      rw [hat] at ho
      cases hcs : commonSize h displs c with
      | true =>
        rw [hcs] at hb
        subst hb
        rw [List.find?_cons, hcs] at hc
        cases hc
        simp only [if_true, Run.defined.injEq] at ho
        exact ⟨h1, ho.symm, hs, hset rfl⟩
      | false =>
        rw [hcs] at hb
        subst hb
        rw [List.find?_cons, hcs] at hc
        have hc1 : rest.find? (commonSize h1 displs) = some c0 := by
          rw [← hc]
          congr 1
          funext x
          exact commonSize_congr hs displs x
        simp only [Bool.false_eq_true, if_false] at ho
        obtain ⟨h2, hret2, hs2, hset2⟩ := ih h1 hc1 ho
        refine ⟨h2, hret2, hs.trans hs2, ?_⟩
        intro p hp hpa
        have := hset2 p hp (by rw [hs.desiredActive]; exact hpa)
        rw [hs.modes] at this
        exact this

theorem candidates_none (displs : List Ptr) (cs : List (Option Mode)) (h : Heap)
    (hc : cs.find? (commonSize h displs) = none)
    (o : Outcome Heap) (ho : mirrorDispls.candidates displs cs h = .defined o) :
    ∃ h1, o = .threw (.runtime_error "unable to find common width/height for mirror") h1 ∧
      SameButLayout h h1 := by
  induction cs generalizing h with
  | nil =>
    simp only [mirrorDispls.candidates, Run.defined.injEq] at ho
    exact ⟨h, ho.symm, SameButLayout.refl h⟩
  | cons c rest ih =>
    rw [mirrorDispls.candidates] at ho
    cases hat : mirrorDispls.attempt c displs true h with
    | undefined => rw [hat] at ho; cases ho
    | defined oa =>
      obtain ⟨b, h1, rfl, hs, _, hb, _⟩ := attempt_spec c displs h oa hat
      rw [hat] at ho
      cases hcs : commonSize h displs c with
      | true => rw [List.find?_cons, hcs] at hc; cases hc
      | false =>
        rw [hcs] at hb
        subst hb
        rw [List.find?_cons, hcs] at hc
        have hc1 : rest.find? (commonSize h1 displs) = none := by
          rw [← hc]
          congr 1
          funext x
          exact commonSize_congr hs displs x
        simp only [Bool.false_eq_true, if_false] at ho
        obtain ⟨h2, hret2, hs2⟩ := ih h1 hc1 ho
        exact ⟨h2, hret2, hs.trans hs2⟩

theorem candidates_total (displs : List Ptr) (cs : List (Option Mode)) (h : Heap)
    (hcs : none ∉ cs)
    (hn : ∀ p ∈ displs, (h p).desiredActive = true → none ∉ (h p).modes) :
    ∃ o, mirrorDispls.candidates displs cs h = .defined o := by
  induction cs generalizing h with
  | nil => exact ⟨_, rfl⟩
  | cons c rest ih =>
    cases c with
    | none => exact absurd (List.mem_cons_self _ _) hcs
    | some pm =>
      obtain ⟨oa, hat⟩ := attempt_total pm displs true h hn
      obtain ⟨b, h1, rfl, hs, _, _, _⟩ := attempt_spec (some pm) displs h oa hat
      rw [mirrorDispls.candidates, hat]
      cases b with
      | true => exact ⟨.returned h1, by simp⟩
      | false =>
        simp only [Bool.false_eq_true, if_false]
        apply ih h1 (fun hin => hcs (List.mem_cons_of_mem _ hin))
        intro q hq hqa
        rw [hs.modes]
        rw [hs.desiredActive] at hqa
        exact hn q hq hqa

theorem firstDispl_eq_head (h : Heap) (displs : List Ptr) :
    mirrorDispls.firstDispl h displs = (activeDispls h displs).head? := by
  induction displs with
  | nil => rfl
  | cons p rest ih =>
    cases hp : (h p).desiredActive <;>
      (simp [mirrorDispls.firstDispl, activeDispls, List.filter_cons, hp];
        try simpa [activeDispls] using ih)

theorem mirrorDispls_total (displs : List Ptr) (h : Heap)
    (hn : ∀ p ∈ displs, (h p).desiredActive = true → none ∉ (h p).modes) :
    ∃ o, mirrorDispls displs h = .defined o := by
  rw [mirrorDispls, firstDispl_eq_head]
  cases hfirst : (activeDispls h displs).head? with
  | none => exact ⟨_, rfl⟩
  | some first =>
    have hmem : first ∈ activeDispls h displs := List.mem_of_mem_head? hfirst
    simp only [activeDispls, List.mem_filter] at hmem
    exact candidates_total displs _ h (hn first hmem.1 hmem.2) hn

/-- C1: when the list has an active display and some mode of the first active display has a
width and height found among the modes of every active display of the list, `mirrorDispls`
returns normally; `c0` being the first such mode of the first active display, every active
display of the list ends with `desiredPos = (0, 0)` and with `desiredMode` the first mode of
its own list that has the width and height of `c0`. The call does run to its end when no
active display of the list holds a null pointer among its modes. -/
theorem mirrorDispls_success (displs : List Ptr) (h : Heap) (first : Ptr)
    (hfirst : (activeDispls h displs).head? = some first)
    (hcommon : ∃ c ∈ (h first).modes, commonSize h displs c = true) :
    (∀ o, mirrorDispls displs h = .defined o →
      ∃ c0 h1, (h first).modes.find? (commonSize h displs) = some c0 ∧
        o = .returned h1 ∧
        ∀ p ∈ displs, (h p).desiredActive = true →
          (h1 p).desiredPos = some ⟨0, 0⟩ ∧
            (h p).modes.find? (sameSize c0) = some (h1 p).desiredMode) ∧
    ((∀ p ∈ displs, (h p).desiredActive = true → none ∉ (h p).modes) →
      ∃ o, mirrorDispls displs h = .defined o) := by
  refine ⟨?_, mirrorDispls_total displs h⟩
  intro o ho
  cases hc : (h first).modes.find? (commonSize h displs) with
  | none =>
    rw [List.find?_eq_none] at hc
    obtain ⟨c, hcm, hcc⟩ := hcommon
    exact absurd hcc (hc c hcm)
  | some c0 =>
    rw [mirrorDispls, firstDispl_eq_head, hfirst] at ho
    obtain ⟨h1, hret, _, hset⟩ := candidates_found displs _ h c0 hc o ho
    exact ⟨c0, h1, rfl, hret, hset⟩

/-- The three sample displays all end at 1280x720, at the origin. -/
theorem mirrorDispls_success_witness :
    ∃ h1, mirrorDispls [0, 1, 2] activeHeap = .defined (.returned h1) ∧
      ((h1 0).desiredMode = some ⟨2, 1280, 720, 60⟩ ∧ (h1 0).desiredPos = some ⟨0, 0⟩) ∧
      ((h1 1).desiredMode = some ⟨3, 1280, 720, 60⟩ ∧ (h1 1).desiredPos = some ⟨0, 0⟩) ∧
      ((h1 2).desiredMode = some ⟨5, 1280, 720, 60⟩ ∧ (h1 2).desiredPos = some ⟨0, 0⟩) := by
  have hthm := mirrorDispls_success [0, 1, 2] activeHeap 0 (by decide)
    ⟨some ⟨2, 1280, 720, 60⟩, by decide, by decide⟩
  obtain ⟨o, ho⟩ := hthm.2 (by decide)
  obtain ⟨c0, h1, hc, rfl, hall⟩ := hthm.1 o ho
  have hc0 : c0 = some ⟨2, 1280, 720, 60⟩ := by
    have hfind : (activeHeap 0).modes.find? (commonSize activeHeap [0, 1, 2]) =
        some (some ⟨2, 1280, 720, 60⟩) := by decide
    rw [hfind] at hc
    exact (Option.some.inj hc).symm
  subst hc0
  have a0 := hall 0 (by decide) (by decide)
  have a1 := hall 1 (by decide) (by decide)
  have a2 := hall 2 (by decide) (by decide)
  have f0 : (activeHeap 0).modes.find? (sameSize (some ⟨2, 1280, 720, 60⟩)) =
      some (some ⟨2, 1280, 720, 60⟩) := by decide
  have f1 : (activeHeap 1).modes.find? (sameSize (some ⟨2, 1280, 720, 60⟩)) =
      some (some ⟨3, 1280, 720, 60⟩) := by decide
  have f2 : (activeHeap 2).modes.find? (sameSize (some ⟨2, 1280, 720, 60⟩)) =
      some (some ⟨5, 1280, 720, 60⟩) := by decide
  exact ⟨h1, ho, ⟨Option.some.inj (a0.2.symm.trans f0), a0.1⟩,
    ⟨Option.some.inj (a1.2.symm.trans f1), a1.1⟩,
    ⟨Option.some.inj (a2.2.symm.trans f2), a2.1⟩⟩

/-- C2: `mirrorDispls` throws exactly when the list has an active display and no mode of the
first active display has a width and height found among the modes of every active display;
what it throws is then the `runtime_error` of the last line; with no active display it
returns normally and leaves the heap as it was. The call does run to its end, one way or
the other, when no active display of the list holds a null pointer among its modes. -/
theorem mirrorDispls_fails_iff (displs : List Ptr) (h : Heap) :
    (∀ o, mirrorDispls displs h = .defined o →
      ((∃ e h1, o = .threw e h1) ↔
        ∃ first, (activeDispls h displs).head? = some first ∧
          ∀ c ∈ (h first).modes, commonSize h displs c = false) ∧
      (∀ e h1, o = .threw e h1 →
        e = .runtime_error "unable to find common width/height for mirror")) ∧
    (activeDispls h displs = [] → mirrorDispls displs h = .defined (.returned h)) ∧
    ((∀ p ∈ displs, (h p).desiredActive = true → none ∉ (h p).modes) →
      ∃ o, mirrorDispls displs h = .defined o) := by
  refine ⟨?_, ?_, mirrorDispls_total displs h⟩
  · intro o ho
    rw [mirrorDispls, firstDispl_eq_head] at ho
    cases hfirst : (activeDispls h displs).head? with
    | none =>
      rw [hfirst] at ho
      simp only [Run.defined.injEq] at ho
      subst ho
      simp
    | some first =>
      rw [hfirst] at ho
      simp only at ho
      cases hc : (h first).modes.find? (commonSize h displs) with
      | none =>
        obtain ⟨h1, rfl, _⟩ := candidates_none displs _ h hc o ho
        rw [List.find?_eq_none] at hc
        refine ⟨?_, ?_⟩
        · constructor
          · intro _
            exact ⟨first, rfl, fun c hcm => by simpa using hc c hcm⟩
          · intro _
            exact ⟨_, _, rfl⟩
        · intro e h2 he
          cases he
          rfl
      | some c0 =>
        obtain ⟨h1, rfl, _, _⟩ := candidates_found displs _ h c0 hc o ho
        refine ⟨?_, ?_⟩
        · constructor
          · rintro ⟨e, h2, he⟩
            cases he
          · rintro ⟨f, hf, hall⟩
            cases hf
            have h1 := hall c0 (List.mem_of_find?_eq_some hc)
            have h2 := List.find?_some hc
            rw [h1] at h2
            cases h2
        · intro e h2 he
          cases he
  · intro hnil
    rw [mirrorDispls, firstDispl_eq_head, hnil]
    rfl

/-- Two displays without a common size make `mirrorDispls` throw; a list without an active
display is left alone. -/
theorem mirrorDispls_fails_iff_witness :
    (∃ h1, mirrorDispls [0, 1] disjointHeap =
        .defined (.threw (.runtime_error "unable to find common width/height for mirror")
          h1)) ∧
      mirrorDispls [3] activeHeap = .defined (.returned activeHeap) := by
  have hthm := mirrorDispls_fails_iff [0, 1] disjointHeap
  obtain ⟨o, ho⟩ := hthm.2.2 (by decide)
  obtain ⟨e, h1, rfl⟩ := (hthm.1 o ho).1.mpr ⟨0, by decide, by decide⟩
  have he := (hthm.1 _ ho).2 e h1 rfl
  subst he
  exact ⟨⟨h1, ho⟩, (mirrorDispls_fails_iff [3] activeHeap).2.1 (by decide)⟩

/-! ## The setters -/

/-- C11: `desiredActive(value)` throws exactly when the value is true and the display has no
`optimalMode`; it then throws `invalid_argument` and leaves the display as it was, so
`desiredActive` keeps its value; in every other case, so always for the value false, it
returns the display with `desiredActive` set to the value and nothing else changed. -/
theorem setDesiredActive_spec (d : Displ) (value : Bool) :
    ((d.setDesiredActive value).thrown ≠ none ↔ (value = true ∧ d.optimalMode = none)) ∧
    (value = true → d.optimalMode = none →
      d.setDesiredActive value =
        .threw (.invalid_argument
          ("Displ '" ++ d.name ++ "' cannot set desiredActive without optimalMode")) d) ∧
    (¬ (value = true ∧ d.optimalMode = none) →
      d.setDesiredActive value = .returned { d with desiredActive := value }) ∧
    (d.setDesiredActive false = .returned { d with desiredActive := false }) := by
  refine ⟨?_, ?_, ?_, ?_⟩
  · cases h : d.optimalMode <;> cases value <;>
      simp [Displ.setDesiredActive, Outcome.thrown, h]
  · intro hv ho
    simp [Displ.setDesiredActive, hv, ho]
  · cases h : d.optimalMode <;> cases value <;>
      simp [Displ.setDesiredActive, h]
  · simp [Displ.setDesiredActive]

/-- A disconnected display without modes cannot be activated and stays inactive; a display
with modes can; deactivation returns. -/
theorem setDesiredActive_spec_witness :
    ((startHeap 3).setDesiredActive true =
        .threw (.invalid_argument
          ("Displ '" ++ (startHeap 3).name ++ "' cannot set desiredActive without optimalMode"))
          (startHeap 3)) ∧
      (startHeap 3).desiredActive = false ∧
      ((startHeap 0).setDesiredActive true =
        .returned { startHeap 0 with desiredActive := true }) ∧
      ((startHeap 3).setDesiredActive false =
        .returned { startHeap 3 with desiredActive := false }) :=
  ⟨(setDesiredActive_spec (startHeap 3) true).2.1 rfl (by decide), by decide,
    (setDesiredActive_spec (startHeap 0) true).2.2.1 (by decide),
    (setDesiredActive_spec (startHeap 3) true).2.2.2⟩

theorem generateOptimalMode_mem (modes : List (Option Mode)) (preferredMode : Option Mode)
    (r : Option Mode) (h : generateOptimalMode modes preferredMode = .defined r)
    (hne : modes ≠ []) : r ∈ modes := by
  cases modes with
  | nil => exact absurd rfl hne
  | cons a rest =>
    cases preferredMode with
    | none =>
      simp only [generateOptimalMode, Run.defined.injEq] at h
      subst h; simp
    | some pm =>
      simp only [generateOptimalMode] at h
      rcases override_defined pm (a :: rest) a r h with
        ⟨pre, m, post, he, _, _, hr⟩ | ⟨_, hr⟩
      · rw [hr, he]; simp
      · rw [hr]; simp

theorem generateOptimalMode_some_mem (modes : List (Option Mode))
    (preferredMode : Option Mode) (m : Mode)
    (h : generateOptimalMode modes preferredMode = .defined (some m)) : some m ∈ modes := by
  apply generateOptimalMode_mem modes preferredMode (some m) h
  rintro rfl
  simp [generateOptimalMode] at h

theorem Displ_new_ok (name : String) (state : State) (modes : List (Option Mode))
    (currentMode preferredMode : Option Mode) (currentPos : Option Pos) (edid : Option Edid)
    (d : Displ)
    (h : Displ.new name state modes currentMode preferredMode currentPos edid =
      .defined (.ok d)) :
    ∃ sorted optimalMode, sortSharedPtrList modes = .defined sorted ∧
      generateOptimalMode (reverseSharedPtrList sorted) preferredMode = .defined optimalMode ∧
      d = { name := name, state := state, modes := reverseSharedPtrList sorted,
            currentMode := currentMode, preferredMode := preferredMode,
            optimalMode := optimalMode, currentPos := currentPos, edid := edid,
            desiredActive := false, desiredMode := none, desiredPos := none } ∧
      ((state = .active ∨ state = .connected) → modes ≠ []) := by
  obtain ⟨sorted, optimalMode, hs, hg, hc⟩ := Displ_new_defined _ _ _ _ _ _ _ _ h
  have hmem := mem_sorted modes sorted hs
  have hspec := checks_spec
    { name := name, state := state, modes := reverseSharedPtrList sorted,
      currentMode := currentMode, preferredMode := preferredMode,
      optimalMode := optimalMode, currentPos := currentPos, edid := edid,
      desiredActive := false, desiredMode := none, desiredPos := none } modes hmem
  refine ⟨sorted, optimalMode, hs, hg, hspec.2.2 d hc.symm, ?_⟩
  intro hstate hnil
  have herr := hspec.1.mpr (by
    rcases hstate with hs1 | hs1
    · exact Or.inl ⟨hs1, Or.inr (Or.inr hnil)⟩
    · exact Or.inr (Or.inl ⟨hs1, hnil⟩))
  obtain ⟨e, he⟩ := herr
  rw [← hc] at he
  cases he

theorem setDesiredActive_returned (d d1 : Displ) (value : Bool)
    (h : d.setDesiredActive value = .returned d1) :
    d1 = { d with desiredActive := value } ∧ (value = true → d.optimalMode ≠ none) := by
  unfold Displ.setDesiredActive at h
  split_ifs at h with hc
  cases h
  refine ⟨rfl, ?_⟩
  intro hv ho
  exact hc ⟨hv, by simp [ho]⟩

theorem setDesiredMode_returned (d d1 : Displ) (value : Option Mode)
    (h : d.setDesiredMode value = .returned d1) :
    value ∈ d.modes ∧ d1 = { d with desiredMode := value } := by
  unfold Displ.setDesiredMode at h
  split_ifs at h with hc
  cases h
  exact ⟨hc, rfl⟩

theorem Reachable_sound (d : Displ) (h : Displ.Reachable d) : d.Sound := by
  induction h with
  | constructed name state modes currentMode preferredMode currentPos edid d hnew =>
    obtain ⟨sorted, optimalMode, hs, hg, hd, hmodes⟩ := Displ_new_ok _ _ _ _ _ _ _ _ hnew
    subst hd
    refine ⟨?_, ?_, ?_, ?_⟩
    · intro hst
      exact generateOptimalMode_mem _ _ _ hg (ranked_ne_nil modes sorted hs (hmodes hst))
    · intro hf; cases hf
    · intro m hm
      simp only at hm
      subst hm
      exact generateOptimalMode_some_mem _ _ _ hg
    · intro m hm; cases hm
  | desiredActive d d1 value _ hset ih =>
    obtain ⟨hd1, hopt⟩ := setDesiredActive_returned d d1 value hset
    subst hd1
    exact ⟨ih.1, fun hv => hopt hv, ih.2.2.1, ih.2.2.2⟩
  | desiredMode d d1 value _ hset ih =>
    obtain ⟨hm, hd1⟩ := setDesiredMode_returned d d1 value hset
    subst hd1
    refine ⟨ih.1, ih.2.1, ih.2.2.1, ?_⟩
    intro x hx
    simp only at hx
    subst hx
    exact hm
  | desiredPos d value _ ih => exact ih

theorem nullModeDispl_reachable : nullModeDispl.Reachable :=
  .constructed "VGA-1" .connected [none] none none none none _ rfl

/-- C12, amended: `desiredMode(value)` returns exactly when the pointer given is one of the
pointers of the display's mode list; it then stores the pointer and changes nothing else;
otherwise it throws `invalid_argument` and leaves the display as it was. A null pointer is
refused whenever the list holds no null pointer. Hence the `desiredMode` of a display that
was constructed and then changed through its setters is unset or among its modes. -/
theorem setDesiredMode_spec (d : Displ) (value : Option Mode) :
    ((d.setDesiredMode value).thrown = none ↔ value ∈ d.modes) ∧
    (value ∈ d.modes →
      d.setDesiredMode value = .returned { d with desiredMode := value }) ∧
    (value ∉ d.modes →
      d.setDesiredMode value =
        .threw (.invalid_argument
          ("Displ '" ++ d.name ++ "' cannot set desiredMode which is not present in modes"))
          d) ∧
    (none ∉ d.modes →
      d.setDesiredMode none =
        .threw (.invalid_argument
          ("Displ '" ++ d.name ++ "' cannot set desiredMode which is not present in modes"))
          d) ∧
    (∀ d0 : Displ, d0.Reachable → ∀ m, d0.desiredMode = some m → some m ∈ d0.modes) := by
  refine ⟨?_, ?_, ?_, ?_, ?_⟩
  · by_cases hm : value ∈ d.modes <;> simp [Displ.setDesiredMode, Outcome.thrown, hm]
  · intro hm
    simp [Displ.setDesiredMode, hm]
  · intro hm
    simp [Displ.setDesiredMode, hm]
  · intro hm
    simp [Displ.setDesiredMode, hm]
  · intro d0 hr
    exact (Reachable_sound d0 hr).2.2.2

/-- A mode of the list is stored; a mode of the same size at another address and a null
value are refused and leave the display as it was. -/
theorem setDesiredMode_spec_witness :
    ((activeHeap 0).setDesiredMode (some ⟨2, 1280, 720, 60⟩) =
        .returned { activeHeap 0 with desiredMode := some ⟨2, 1280, 720, 60⟩ }) ∧
      ((activeHeap 0).setDesiredMode (some ⟨3, 1280, 720, 60⟩) =
        .threw (.invalid_argument
          ("Displ '" ++ (activeHeap 0).name ++
            "' cannot set desiredMode which is not present in modes"))
          (activeHeap 0)) ∧
      ((activeHeap 0).setDesiredMode none =
        .threw (.invalid_argument
          ("Displ '" ++ (activeHeap 0).name ++
            "' cannot set desiredMode which is not present in modes"))
          (activeHeap 0)) :=
  ⟨(setDesiredMode_spec (activeHeap 0) (some ⟨2, 1280, 720, 60⟩)).2.1 (by decide),
    (setDesiredMode_spec (activeHeap 0) (some ⟨3, 1280, 720, 60⟩)).2.2.1 (by decide),
    (setDesiredMode_spec (activeHeap 0) none).2.2.2.1 (by decide)⟩

/-- The display constructed from a connected state and a mode list that holds one null
pointer accepts `desiredMode(nullptr)`: the null pointer is found in the list. -/
theorem setDesiredMode_null_accepted : ¬ NullModeRefused nullModeDispl := by
  intro hrefused
  obtain ⟨e, he⟩ := hrefused nullModeDispl_reachable
  have hret : (nullModeDispl.setDesiredMode none).thrown = none := by decide
  rw [he] at hret
  cases hret

/-! ## DPI derivation -/

/-- C13: `calculateDpi` always returns, leaving heap and primary alone. With a primary that
has EDID data and a desired mode for which the EDID gives a non-zero DPI, the desired DPI
becomes that value; with no primary, else no EDID data, else no desired mode, else a DPI of
0, the desired DPI stays as it was and the text names that case. So a desired DPI that
differs afterwards comes from the first case only. -/
theorem calculateDpi_chain (dpiForMode : Edid → Mode → Int) (displs : List Ptr) (w : World) :
    ((calculateDpi dpiForMode displs w).2.heap = w.heap ∧
      (calculateDpi dpiForMode displs w).2.desiredPrimary = w.desiredPrimary) ∧
    (∀ p edid mode, w.desiredPrimary = some p → (w.heap p).edid = some edid →
      (w.heap p).desiredMode = some mode → dpiForMode edid mode ≠ 0 →
      (calculateDpi dpiForMode displs w).2.desiredDpi = dpiForMode edid mode ∧
        (calculateDpi dpiForMode displs w).1 =
          "DPI " ++ toString (dpiForMode edid mode) ++ " for primary display " ++
            (w.heap p).name) ∧
    (w.desiredPrimary = none →
      calculateDpi dpiForMode displs w =
        ("DPI defaulting to " ++ toString w.desiredDpi ++
          "; no primary display has been set set", w)) ∧
    (∀ p, w.desiredPrimary = some p → (w.heap p).edid = none →
      calculateDpi dpiForMode displs w =
        ("DPI defaulting to " ++ toString w.desiredDpi ++
          "; EDID information not available for primary display " ++ (w.heap p).name, w)) ∧
    (∀ p edid, w.desiredPrimary = some p → (w.heap p).edid = some edid →
      (w.heap p).desiredMode = none →
      calculateDpi dpiForMode displs w =
        ("DPI defaulting to " ++ toString w.desiredDpi ++
          "; desiredMode not available for primary display " ++ (w.heap p).name, w)) ∧
    (∀ p edid mode, w.desiredPrimary = some p → (w.heap p).edid = some edid →
      (w.heap p).desiredMode = some mode → dpiForMode edid mode = 0 →
      calculateDpi dpiForMode displs w =
        ("DPI defaulting to " ++ toString w.desiredDpi ++
          "; no display size EDID information available for " ++ (w.heap p).name, w)) ∧
    ((calculateDpi dpiForMode displs w).2.desiredDpi ≠ w.desiredDpi →
      ∃ p edid mode, w.desiredPrimary = some p ∧ (w.heap p).edid = some edid ∧
        (w.heap p).desiredMode = some mode ∧ dpiForMode edid mode ≠ 0 ∧
        (calculateDpi dpiForMode displs w).2.desiredDpi = dpiForMode edid mode) := by
  refine ⟨?_, ?_, ?_, ?_, ?_, ?_, ?_⟩
  · cases hp : w.desiredPrimary with
    | none => simp [calculateDpi, hp]
    | some p =>
      cases he : (w.heap p).edid with
      | none => simp [calculateDpi, hp, he]
      | some edid =>
        cases hm : (w.heap p).desiredMode with
        | none => simp [calculateDpi, hp, he, hm]
        | some mode =>
          by_cases hz : dpiForMode edid mode = 0 <;> simp [calculateDpi, hp, he, hm, hz]
  · intro p edid mode hp he hm hz
    simp [calculateDpi, hp, he, hm, hz]
  · intro hp
    simp [calculateDpi, hp]
  · intro p hp he
    simp [calculateDpi, hp, he]
  · intro p edid hp he hm
    simp [calculateDpi, hp, he, hm]
  · intro p edid mode hp he hm hz
    simp [calculateDpi, hp, he, hm, hz]
  · intro hne
    cases hp : w.desiredPrimary with
    | none => simp [calculateDpi, hp] at hne
    | some p =>
      cases he : (w.heap p).edid with
      | none => simp [calculateDpi, hp, he] at hne
      | some edid =>
        cases hm : (w.heap p).desiredMode with
        | none => simp [calculateDpi, hp, he, hm] at hne
        | some mode =>
          by_cases hz : dpiForMode edid mode = 0
          · simp [calculateDpi, hp, he, hm, hz] at hne
          · exact ⟨p, edid, mode, rfl, he, hm, hz, by simp [calculateDpi, hp, he, hm, hz]⟩

/-- With 96 held before: the primary whose size is known gives 144, the primary whose size
is unknown leaves 96. -/
theorem calculateDpi_chain_witness :
    (calculateDpi sampleDpiForMode [0, 1]
        { heap := dpiHeap, desiredPrimary := some 0, desiredDpi := 96 }).2.desiredDpi = 144 ∧
      (calculateDpi sampleDpiForMode [0, 1]
        { heap := dpiHeap, desiredPrimary := some 1, desiredDpi := 96 }).2.desiredDpi = 96 :=
  ⟨((calculateDpi_chain sampleDpiForMode [0, 1]
        { heap := dpiHeap, desiredPrimary := some 0, desiredDpi := 96 }).2.1
        0 ⟨1⟩ ⟨1, 1920, 1080, 60⟩ rfl rfl rfl (by decide)).1,
    congrArg (fun r => r.2.desiredDpi)
      ((calculateDpi_chain sampleDpiForMode [0, 1]
        { heap := dpiHeap, desiredPrimary := some 1, desiredDpi := 96 }).2.2.2.2.2.1
        1 ⟨2⟩ ⟨2, 2560, 1440, 60⟩ rfl rfl rfl (by decide))⟩

/-- C14: with no primary set and the desired DPI still at `DEFAULT_DPI`, `calculateDpi`
leaves the desired DPI at `DEFAULT_DPI` and returns a text that contains `no primary` and
the decimal digits of `DEFAULT_DPI`. -/
theorem calculateDpi_no_primary (dpiForMode : Edid → Mode → Int) (DEFAULT_DPI : Int)
    (displs : List Ptr) (w : World) (hprimary : w.desiredPrimary = none)
    (hdpi : w.desiredDpi = DEFAULT_DPI) :
    (calculateDpi dpiForMode displs w).2.desiredDpi = DEFAULT_DPI ∧
      (∃ pre post : String,
        (calculateDpi dpiForMode displs w).1 = pre ++ "no primary" ++ post) ∧
      (∃ pre post : String,
        (calculateDpi dpiForMode displs w).1 = pre ++ toString DEFAULT_DPI ++ post) := by
  have hcalc : calculateDpi dpiForMode displs w =
      ("DPI defaulting to " ++ toString DEFAULT_DPI ++
        "; no primary display has been set set", w) := by
    simp [calculateDpi, hprimary, hdpi]
  rw [hcalc]
  refine ⟨hdpi, ?_, ?_⟩
  · refine ⟨"DPI defaulting to " ++ toString DEFAULT_DPI ++ "; ",
      " display has been set set", ?_⟩
    have hsplit : "; no primary display has been set set" =
        "; " ++ ("no primary" ++ " display has been set set") := by decide
    show "DPI defaulting to " ++ toString DEFAULT_DPI ++
        "; no primary display has been set set" = _
    rw [hsplit]
    simp only [String.append_assoc]
  · exact ⟨"DPI defaulting to ", "; no primary display has been set set", rfl⟩

/-- From the initial state with a default of 96 the text is the one of the first branch and
the desired DPI stays 96. -/
theorem calculateDpi_no_primary_witness :
    (calculateDpi sampleDpiForMode [0, 1] (World.initial 96 dpiHeap)).2.desiredDpi = 96 ∧
      (∃ pre post : String,
        (calculateDpi sampleDpiForMode [0, 1] (World.initial 96 dpiHeap)).1 =
          pre ++ "no primary" ++ post) ∧
      (∃ pre post : String,
        (calculateDpi sampleDpiForMode [0, 1] (World.initial 96 dpiHeap)).1 =
          pre ++ toString (96 : Int) ++ post) :=
  calculateDpi_no_primary sampleDpiForMode 96 [0, 1] (World.initial 96 dpiHeap) rfl rfl

/-! ## Left-to-right layout: what is left alone -/

theorem SameButLayout.set_placed (h : Heap) (p : Ptr) (m : Mode) (x : Int) :
    SameButLayout h (h.set p (placed (h p) m x)) := by
  intro q
  unfold Heap.set placed
  by_cases hq : q = p
  · subst hq; simp
  · simp [hq]

theorem ltr_loop_frame (displs : List Ptr) (xpos : Int) (h : Heap) (o : Outcome Heap)
    (ho : ltrDispls.loop displs xpos h = .defined o) :
    SameButLayout h o.state ∧
      ∀ q, (q ∉ displs ∨ (h q).desiredActive = false) → o.state q = h q := by
  induction displs generalizing xpos h with
  | nil =>
    simp only [ltrDispls.loop, Run.defined.injEq] at ho
    subst ho
    exact ⟨SameButLayout.refl h, fun _ _ => rfl⟩
  | cons p rest ih =>
    cases hp : (h p).desiredActive with
    | false =>
      rw [ltr_loop_skip p rest xpos h hp] at ho
      refine ⟨(ih xpos h ho).1, ?_⟩
      intro q hq
      apply (ih xpos h ho).2
      rcases hq with hq | hq
      · left; exact fun hin => hq (by simp [hin])
      · right; exact hq
    | true =>
      by_cases hin : (h p).optimalMode ∈ (h p).modes
      · cases hopt : (h p).optimalMode with
        | none =>
          rw [hopt] at hin
          rw [ltr_loop_null p rest xpos h hp hopt hin] at ho
          cases ho
        | some m =>
          rw [hopt] at hin
          rw [ltr_loop_take p rest xpos h m hp hopt hin] at ho
          have hs0 := SameButLayout.set_placed h p m xpos
          obtain ⟨hs, hframe⟩ := ih _ _ ho
          refine ⟨hs0.trans hs, ?_⟩
          intro q hq
          have hqp : q ≠ p := by
            rintro rfl
            rcases hq with hq | hq
            · exact hq (by simp)
            · rw [hp] at hq; cases hq
          rw [hframe q ?_]
          · simp [Heap.set, hqp]
          · rcases hq with hq | hq
            · left; exact fun hin => hq (by simp [hin])
            · right; rw [hs0.desiredActive]; exact hq
      · rw [ltr_loop_fail p rest xpos h hp hin] at ho
        simp only [Run.defined.injEq] at ho
        subst ho
        exact ⟨SameButLayout.refl h, fun _ _ => rfl⟩

theorem ltr_loop_total (displs : List Ptr) (xpos : Int) (h : Heap)
    (hn : ∀ p ∈ displs, (h p).desiredActive = true → (h p).optimalMode = none →
      none ∉ (h p).modes) :
    ∃ o, ltrDispls.loop displs xpos h = .defined o := by
  induction displs generalizing xpos h with
  | nil => exact ⟨_, rfl⟩
  | cons p rest ih =>
    cases hp : (h p).desiredActive with
    | false =>
      rw [ltr_loop_skip p rest xpos h hp]
      exact ih xpos h (fun q hq => hn q (by simp [hq]))
    | true =>
      by_cases hin : (h p).optimalMode ∈ (h p).modes
      · cases hopt : (h p).optimalMode with
        | none =>
          rw [hopt] at hin
          exact absurd hin (hn p (by simp) hp hopt)
        | some m =>
          rw [hopt] at hin
          rw [ltr_loop_take p rest xpos h m hp hopt hin]
          apply ih
          intro q hq
          simp only [placed_active, placed_optimalMode, placed_modes]
          exact hn q (by simp [hq])
      · rw [ltr_loop_fail p rest xpos h hp hin]
        exact ⟨_, rfl⟩

/-- C16: whether `ltrDispls` returns or throws, a display that is not `desiredActive`, and a
display that is not in the list, is exactly as before; no display changes its
`desiredActive`, nor any member other than `desiredMode` and `desiredPos`. The list itself is
only read. The call does run to its end, one way or the other, when no active display of
the list without an `optimalMode` holds a null pointer among its modes. -/
theorem ltrDispls_frame (displs : List Ptr) (h : Heap) :
    (∀ o, ltrDispls displs h = .defined o →
      (∀ q, (h q).desiredActive = false → o.state q = h q) ∧
        (∀ q, q ∉ displs → o.state q = h q) ∧
        (∀ q, (o.state q).desiredActive = (h q).desiredActive) ∧
        SameButLayout h o.state) ∧
    ((∀ p ∈ displs, (h p).desiredActive = true → (h p).optimalMode = none →
        none ∉ (h p).modes) →
      ∃ o, ltrDispls displs h = .defined o) := by
  refine ⟨?_, ltr_loop_total displs 0 h⟩
  intro o ho
  obtain ⟨hs, hframe⟩ := ltr_loop_frame displs 0 h o ho
  exact ⟨fun q hq => hframe q (Or.inr hq), fun q hq => hframe q (Or.inl hq),
    fun q => hs.desiredActive q, hs⟩

/-- The inactive display among the three active ones is left as it was. -/
theorem ltrDispls_frame_witness :
    ∃ o, ltrDispls [0, 3, 1, 2] activeHeap = .defined o ∧
      o.state 3 = activeHeap 3 ∧ (o.state 0).desiredActive = true := by
  have hthm := ltrDispls_frame [0, 3, 1, 2] activeHeap
  obtain ⟨o, ho⟩ := hthm.2 (by decide)
  exact ⟨o, ho, (hthm.1 o ho).1 3 (by decide), ((hthm.1 o ho).2.2.1 0).trans (by decide)⟩

/-! ## Mirror layout: what a failing call leaves behind -/

theorem mirrored_mirrored (d : Displ) (m m1 : Mode) :
    mirrored (mirrored d m) m1 = mirrored d m1 := rfl

theorem attempt_writes (c : Option Mode) (displs : List Ptr) (h : Heap)
    (o : Outcome (Bool × Heap)) (ho : mirrorDispls.attempt c displs true h = .defined o) :
    ∀ q, o.state.2 q = h q ∨ WrittenFor h displs c q (o.state.2 q) := by
  induction displs generalizing h with
  | nil =>
    simp only [mirrorDispls.attempt, Run.defined.injEq] at ho
    subst ho
    intro q; left; rfl
  | cons p rest ih =>
    intro q
    cases hp : (h p).desiredActive with
    | false =>
      rw [attempt_skip c p rest true h hp] at ho
      rcases ih h ho q with hq | ⟨hqa, ⟨pre, post, hsplit, hpre⟩, hm⟩
      · left; exact hq
      · right
        refine ⟨hqa, ⟨p :: pre, post, by simp [hsplit], ?_⟩, hm⟩
        intro x hx hxa
        rcases List.mem_cons.mp hx with rfl | hx
        · rw [hp] at hxa; cases hxa
        · exact hpre x hx hxa
    | true =>
      cases hf : mirrorDispls.findMode c (h p).modes with
      | undefined => rw [attempt_null c p rest true h hp hf] at ho; cases ho
      | defined r =>
        have hfind := findMode_defined c _ _ hf
        cases r with
        | none =>
          rw [attempt_miss c p rest h hp hf] at ho
          rw [attempt_false c rest h o ho]
          left; rfl
        | some m =>
          simp only [Option.map_some'] at hfind
          rw [attempt_hit c p rest h m hp hf] at ho
          have hs0 := SameButLayout.set_mirrored h p m
          rcases ih (h.set p (mirrored (h p) m)) ho q with
            hq | ⟨hqa, ⟨pre, post, hsplit, hpre⟩, m1, hm1, hd⟩
          · by_cases hqp : q = p
            · subst hqp
              right
              refine ⟨hp, ⟨[], rest, rfl, by simp⟩, m, hfind, ?_⟩
              rw [hq]; simp [Heap.set]
            · left
              rw [hq]; simp [Heap.set, hqp]
          · right
            rw [hs0.desiredActive] at hqa
            rw [hs0.modes] at hm1
            refine ⟨hqa, ⟨p :: pre, post, by simp [hsplit], ?_⟩, m1, hm1, ?_⟩
            · intro x hx hxa
              rcases List.mem_cons.mp hx with rfl | hx
              · rw [hfind]; rfl
              · have := hpre x hx (by rw [hs0.desiredActive]; exact hxa)
                rw [hs0.modes] at this
                exact this
            · rw [hd]
              by_cases hqp : q = p
              · subst hqp; simp [Heap.set, mirrored_mirrored]
              · simp [Heap.set, hqp]

theorem WrittenFor.congr {h h1 : Heap} (hs : SameButLayout h h1) (displs : List Ptr)
    (c : Option Mode) (q : Ptr) (d : Displ) (hw : WrittenFor h1 displs c q d)
    (hq : h1 q = h q ∨ ∃ m, h1 q = mirrored (h q) m) : WrittenFor h displs c q d := by
  obtain ⟨hqa, ⟨pre, post, hsplit, hpre⟩, m1, hm1, hd⟩ := hw
  rw [hs.desiredActive] at hqa
  rw [hs.modes] at hm1
  refine ⟨hqa, ⟨pre, post, hsplit, ?_⟩, m1, hm1, ?_⟩
  · intro x hx hxa
    have := hpre x hx (by rw [hs.desiredActive]; exact hxa)
    rw [hs.modes] at this
    exact this
  · rw [hd]
    rcases hq with e | ⟨m, e⟩
    · rw [e]
    · rw [e, mirrored_mirrored]

theorem candidates_writes (displs : List Ptr) (cs : List (Option Mode)) (h : Heap)
    (o : Outcome Heap) (ho : mirrorDispls.candidates displs cs h = .defined o) :
    SameButLayout h o.state ∧
      ∀ q, o.state q = h q ∨ ∃ c ∈ cs, WrittenFor h displs c q (o.state q) := by
  induction cs generalizing h with
  | nil =>
    simp only [mirrorDispls.candidates, Run.defined.injEq] at ho
    subst ho
    exact ⟨SameButLayout.refl h, fun q => Or.inl rfl⟩
  | cons c rest ih =>
    rw [mirrorDispls.candidates] at ho
    cases hat : mirrorDispls.attempt c displs true h with
    | undefined => rw [hat] at ho; cases ho
    | defined oa =>
      have hw := attempt_writes c displs h oa hat
      obtain ⟨b, h1, rfl, hs, _, _, _⟩ := attempt_spec c displs h oa hat
      rw [hat] at ho
      simp only [Outcome.state] at hw
      have hfirst : ∀ q, h1 q = h q ∨ ∃ m, h1 q = mirrored (h q) m := by
        intro q
        rcases hw q with e | ⟨_, _, m, _, e⟩
        · exact Or.inl e
        · exact Or.inr ⟨m, e⟩
      cases b with
      | true =>
        simp only [if_true, Run.defined.injEq] at ho
        subst ho
        refine ⟨hs, ?_⟩
        intro q
        rcases hw q with e | hq
        · exact Or.inl e
        · exact Or.inr ⟨c, by simp, hq⟩
      | false =>
        simp only [Bool.false_eq_true, if_false] at ho
        obtain ⟨hs2, hw2⟩ := ih h1 ho
        refine ⟨hs.trans hs2, ?_⟩
        intro q
        rcases hw2 q with e | ⟨c2, hc2, hq2⟩
        · rw [e]
          rcases hw q with e1 | hq
          · exact Or.inl e1
          · exact Or.inr ⟨c, by simp, hq⟩
        · exact Or.inr ⟨c2, by simp [hc2], WrittenFor.congr hs displs c2 q _ hq2 (hfirst q)⟩

/-- C15, amended: whether `mirrorDispls` returns or throws, it changes no member of a display
other than `desiredMode` and `desiredPos`, and a display it has written is an active display
of the list that holds, at the origin, the first mode of its own list with the size of a
mode `c` of the first active display, where every active display before it in the list has a
mode of that size too; the displays after it need not. So after a failing call every display
that is not active or not in the list is as before. The call does run to its end, one way or
the other, when no active display of the list holds a null pointer among its modes. -/
theorem mirrorDispls_writes (displs : List Ptr) (h : Heap) :
    (∀ o, mirrorDispls displs h = .defined o →
      SameButLayout h o.state ∧
        (∀ q, o.state q = h q ∨
          ∃ first c, (activeDispls h displs).head? = some first ∧ c ∈ (h first).modes ∧
            WrittenFor h displs c q (o.state q)) ∧
        (∀ q, (q ∉ displs ∨ (h q).desiredActive = false) → o.state q = h q)) ∧
    ((∀ p ∈ displs, (h p).desiredActive = true → none ∉ (h p).modes) →
      ∃ o, mirrorDispls displs h = .defined o) := by
  refine ⟨?_, mirrorDispls_total displs h⟩
  intro o ho
  have hmain : SameButLayout h o.state ∧
      (∀ q, o.state q = h q ∨
        ∃ first c, (activeDispls h displs).head? = some first ∧ c ∈ (h first).modes ∧
          WrittenFor h displs c q (o.state q)) := by
    rw [mirrorDispls, firstDispl_eq_head] at ho
    cases hfirst : (activeDispls h displs).head? with
    | none =>
      rw [hfirst] at ho
      simp only [Run.defined.injEq] at ho
      subst ho
      exact ⟨SameButLayout.refl h, fun q => Or.inl rfl⟩
    | some first =>
      rw [hfirst] at ho
      obtain ⟨hs, hw⟩ := candidates_writes displs (h first).modes h o ho
      refine ⟨hs, ?_⟩
      intro q
      rcases hw q with e | ⟨c, hc, hq⟩
      · exact Or.inl e
      · exact Or.inr ⟨first, c, rfl, hc, hq⟩
  refine ⟨hmain.1, hmain.2, ?_⟩
  intro q hq
  rcases hmain.2 q with e | ⟨_, _, _, _, hqa, ⟨pre, post, hsplit, _⟩, _⟩
  · exact e
  · exfalso
    rcases hq with hq | hq
    · exact hq (by rw [hsplit]; simp)
    · rw [hq] at hqa; cases hqa

/-- A failing call on two active displays without a common size leaves every member but
`desiredMode` and `desiredPos` as it was. -/
theorem mirrorDispls_writes_witness :
    ∃ o, mirrorDispls [0, 1] disjointHeap = .defined o ∧
      SameButLayout disjointHeap o.state ∧ o.state 7 = disjointHeap 7 := by
  have hthm := mirrorDispls_writes [0, 1] disjointHeap
  obtain ⟨o, ho⟩ := hthm.2 (by decide)
  exact ⟨o, ho, (hthm.1 o ho).1, (hthm.1 o ho).2.2 7 (Or.inl (by decide))⟩

/-- Two active displays without a common size: the call throws, yet the first display has
been given its 1920x1080 mode at the origin. -/
theorem mirrorDispls_all_or_nothing_fails : ¬ MirrorAllOrNothing [0, 1] disjointHeap := by
  intro hall
  have hrun : (mirrorDispls [0, 1] disjointHeap).result.map
      (fun o => (o.thrown.isSome, (o.state 0).desiredMode)) =
        some (true, some ⟨1, 1920, 1080, 60⟩) := by decide
  cases ho : mirrorDispls [0, 1] disjointHeap with
  | undefined => rw [ho] at hrun; cases hrun
  | defined o =>
    cases o with
    | returned h1 =>
      rw [ho] at hrun
      simp [Run.result, Outcome.thrown] at hrun
    | threw e h1 =>
      have h0 := (hall e h1 ho 0).1
      rw [ho] at hrun
      simp only [Run.result, Option.map_some', Outcome.thrown, Outcome.state,
        Option.isSome_some, Option.some.injEq, Prod.mk.injEq, true_and] at hrun
      rw [hrun] at h0
      exact absurd h0 (by decide)

/-! ## Activation followed by layout -/

theorem ltr_loop_returned (displs : List Ptr) (xpos : Int) (h : Heap)
    (hopt : ∀ p ∈ displs, (h p).desiredActive = true →
      ∃ m, (h p).optimalMode = some m ∧ some m ∈ (h p).modes) :
    ∃ h1, ltrDispls.loop displs xpos h = .defined (.returned h1) ∧
      ∀ p ∈ displs, (h p).desiredActive = true →
        (h1 p).desiredMode = (h p).optimalMode := by
  induction displs generalizing xpos h with
  | nil => exact ⟨h, rfl, by simp⟩
  | cons p rest ih =>
    cases hp : (h p).desiredActive with
    | false =>
      obtain ⟨h1, hret, hmode⟩ := ih xpos h (fun q hq => hopt q (by simp [hq]))
      refine ⟨h1, by rw [ltr_loop_skip p rest xpos h hp, hret], ?_⟩
      intro q hq hqa
      rcases List.mem_cons.mp hq with rfl | hq
      · rw [hp] at hqa; cases hqa
      · exact hmode q hq hqa
    | true =>
      obtain ⟨m, ho, hm⟩ := hopt p (by simp) hp
      obtain ⟨h1, hret, hmode⟩ := ih (wrapInt (xpos + m.width))
        (h.set p (placed (h p) m xpos))
        (by
          intro q hq
          simp only [placed_active, placed_optimalMode, placed_modes]
          exact hopt q (by simp [hq]))
      refine ⟨h1, by rw [ltr_loop_take p rest xpos h m hp ho hm, hret], ?_⟩
      intro q hq hqa
      by_cases hqr : q ∈ rest
      · have := hmode q hqr (by rw [placed_active]; exact hqa)
        rw [placed_optimalMode] at this
        exact this
      · have hqp : q = p := by
          rcases List.mem_cons.mp hq with e | e
          · exact e
          · exact absurd e hqr
        subst hqp
        have hfr := (ltr_loop_frame rest _ _ _ hret).2 q (Or.inl hqr)
        simp only [Outcome.state] at hfr
        rw [hfr]
        simp [Heap.set, placed, ho]

theorem ltr_loop_returned_inv (displs : List Ptr) (xpos : Int) (h h1 : Heap)
    (hret : ltrDispls.loop displs xpos h = .defined (.returned h1)) :
    ∀ p ∈ displs, (h p).desiredActive = true →
      ∃ m, (h p).optimalMode = some m ∧ some m ∈ (h p).modes := by
  induction displs generalizing xpos h with
  | nil => intro p hp; cases hp
  | cons p rest ih =>
    cases hp : (h p).desiredActive with
    | false =>
      rw [ltr_loop_skip p rest xpos h hp] at hret
      intro q hq hqa
      rcases List.mem_cons.mp hq with rfl | hq
      · rw [hp] at hqa; cases hqa
      · exact ih xpos h hret q hq hqa
    | true =>
      by_cases hin : (h p).optimalMode ∈ (h p).modes
      · cases hopt : (h p).optimalMode with
        | none =>
          rw [hopt] at hin
          rw [ltr_loop_null p rest xpos h hp hopt hin] at hret
          cases hret
        | some m =>
          rw [hopt] at hin
          rw [ltr_loop_take p rest xpos h m hp hopt hin] at hret
          intro q hq hqa
          rcases List.mem_cons.mp hq with rfl | hq
          · exact ⟨m, hopt, hin⟩
          · have := ih _ _ hret q hq (by rw [placed_active]; exact hqa)
            simpa only [placed_optimalMode, placed_modes] using this
      · rw [ltr_loop_fail p rest xpos h hp hin] at hret
        cases hret

theorem heapAfterActivate_sound (sdd : String → Bool) (h : Heap) (displs : List Ptr)
    (hsound : ∀ p ∈ displs, (h p).Sound)
    (hnull : ∀ p ∈ displs, none ∉ (h p).modes) :
    ∀ p ∈ displs, (heapAfterActivate sdd h displs p).desiredActive = true →
      ∃ m, (heapAfterActivate sdd h displs p).optimalMode = some m ∧
        some m ∈ (heapAfterActivate sdd h displs p).modes := by
  intro p hp hpa
  obtain ⟨hs1, hs2, hs3, _⟩ := hsound p hp
  have hne : (h p).optimalMode ≠ none := by
    by_cases he : eligible sdd (h p) = true
    · have he2 := he
      simp only [eligible, Bool.and_eq_true, Bool.not_eq_true', decide_eq_true_eq] at he2
      intro hnone
      have := hs1 he2.2
      rw [hnone] at this
      exact hnull p hp this
    · simp only [heapAfterActivate, hp, he, and_false, if_false] at hpa
      exact hs2 hpa
  cases ho : (h p).optimalMode with
  | none => exact absurd ho hne
  | some m =>
    refine ⟨m, ?_, ?_⟩
    · unfold heapAfterActivate; split_ifs <;> simp [ho]
    · unfold heapAfterActivate; split_ifs <;> simp [hs3 m ho]

theorem activate_then_ltr (primary : String) (sdd : String → Bool) (displs : List Ptr)
    (w : World) (hreach : ∀ p ∈ displs, (w.heap p).Reachable)
    (hnull : ∀ p ∈ displs, none ∉ (w.heap p).modes) :
    ∃ w1 h2, activateDispls primary sdd displs w = .returned w1 ∧
      ltrDispls displs w1.heap = .defined (.returned h2) := by
  have hsound : ∀ p ∈ displs, (w.heap p).Sound := fun p hp => Reachable_sound _ (hreach p hp)
  have hall : ∀ p ∈ displs, eligible sdd (w.heap p) = true → (w.heap p).optimalMode ≠ none := by
    intro p hp he hnone
    simp only [eligible, Bool.and_eq_true, Bool.not_eq_true', decide_eq_true_eq] at he
    have := (hsound p hp).1 he.2
    rw [hnone] at this
    exact hnull p hp this
  obtain ⟨h2, hret, _⟩ := ltr_loop_returned displs 0 (heapAfterActivate sdd w.heap displs)
    (heapAfterActivate_sound sdd w.heap displs hsound hnull)
  exact ⟨_, h2, activateDispls_returned primary sdd displs w hall, hret⟩

/-- C17, amended: for a list of displays that were constructed and since changed only
through their setters (or in `desiredPos`), and whose mode lists hold no null pointer,
whatever the primary name and the policy, `activateDispls` returns normally and `ltrDispls`
on the same list returns normally after it; for such a display that is active or connected
has an `optimalMode`, and an `optimalMode` is one of the display's modes. -/
theorem activateDispls_ltrDispls_return (primary : String)
    (shouldDisableDisplay : String → Bool) (displs : List Ptr) (w : World)
    (hreach : ∀ p ∈ displs, (w.heap p).Reachable)
    (hnull : ∀ p ∈ displs, none ∉ (w.heap p).modes) :
    (∃ w1 h2, activateDispls primary shouldDisableDisplay displs w = .returned w1 ∧
      ltrDispls displs w1.heap = .defined (.returned h2)) ∧
    (∀ d : Displ, d.Reachable → none ∉ d.modes → (d.state = .active ∨ d.state = .connected) →
      d.optimalMode ≠ none) ∧
    (∀ d : Displ, d.Reachable → ∀ m, d.optimalMode = some m → some m ∈ d.modes) := by
  refine ⟨activate_then_ltr primary shouldDisableDisplay displs w hreach hnull, ?_,
    fun d hd => (Reachable_sound d hd).2.2.1⟩
  intro d hd hn hstate hnone
  have := (Reachable_sound d hd).1 hstate
  rw [hnone] at this
  exact hn this

theorem startHeap_reachable : ∀ p ∈ [0, 1, 2, 3], (startHeap p).Reachable := by
  intro p hp
  simp only [List.mem_cons, List.mem_singleton, List.not_mem_nil, or_false] at hp
  rcases hp with rfl | rfl | rfl | rfl
  · exact .constructed "eDP-1" .active [some ⟨1, 1920, 1080, 60⟩] (some ⟨1, 1920, 1080, 60⟩)
      none (some ⟨0, 0⟩) none _ rfl
  · exact .constructed "HDMI-1" .connected [some ⟨2, 2560, 1440, 60⟩]
      (some ⟨2, 2560, 1440, 60⟩) none (some ⟨0, 0⟩) none _ rfl
  · exact .constructed "DP-2" .connected [some ⟨3, 1280, 720, 60⟩] (some ⟨3, 1280, 720, 60⟩)
      none (some ⟨0, 0⟩) none _ rfl
  · exact .constructed "DP-1" .disconnected [] none none none none _ rfl

theorem startHeap_null_free : ∀ p ∈ [0, 1, 2, 3], none ∉ (startHeap p).modes := by
  intro p hp
  simp only [List.mem_cons, List.mem_singleton, List.not_mem_nil, or_false] at hp
  rcases hp with rfl | rfl | rfl | rfl <;> decide

/-- The four sample displays, as constructed, are activated and laid out without a throw. -/
theorem activateDispls_ltrDispls_return_witness :
    ∃ w1 h2, activateDispls "hdmi-1" samplePolicy [0, 1, 2, 3] startWorld = .returned w1 ∧
      ltrDispls [0, 1, 2, 3] w1.heap = .defined (.returned h2) :=
  (activateDispls_ltrDispls_return "hdmi-1" samplePolicy [0, 1, 2, 3] startWorld
    startHeap_reachable startHeap_null_free).1

/-- The connected display constructed from a mode list that holds one null pointer has no
`optimalMode`, and `activateDispls` throws on it. -/
theorem activateDispls_null_mode_throws :
    ¬ ActivateLtrReturn "" (fun _ => false) [0] nullModeWorld := by
  intro hreturn
  obtain ⟨w1, h2, hact, _⟩ := hreturn (fun _ _ => nullModeDispl_reachable)
  have hthrown : (activateDispls "" (fun _ => false) [0] nullModeWorld).thrown =
      some (.invalid_argument
        "Displ 'VGA-1' cannot set desiredActive without optimalMode") := by decide
  rw [hact] at hthrown
  cases hthrown

theorem primaryAfter_mem (primary : String) (sdd : String → Bool) (h : Heap)
    (displs : List Ptr) (p : Ptr) (hp : primaryAfter primary sdd h displs none = some p) :
    p ∈ displs ∧ eligible sdd (h p) = true := by
  unfold primaryAfter at hp
  cases hL : (displs.filter fun p => eligible sdd (h p) && namedPrimary primary (h p)).getLast?
    with
  | some x =>
    rw [hL] at hp
    simp only [Option.some.injEq] at hp
    subst hp
    have hx := List.mem_of_getLast?_eq_some hL
    rw [List.mem_filter] at hx
    simp only [Bool.and_eq_true] at hx
    exact ⟨hx.1, hx.2.1⟩
  | none =>
    rw [hL] at hp
    simp only at hp
    have h1 := List.mem_of_find?_eq_some hp
    have h2 := List.find?_some hp
    exact ⟨h1, h2⟩

theorem mirrorDispls_returned_mode (displs : List Ptr) (h h1 : Heap)
    (hret : mirrorDispls displs h = .defined (.returned h1)) :
    ∀ p ∈ displs, (h p).desiredActive = true → (h1 p).desiredMode ≠ none := by
  intro p hp hpa
  have hmem : p ∈ activeDispls h displs := by
    simp [activeDispls, List.mem_filter, hp, hpa]
  cases hfirst : (activeDispls h displs).head? with
  | none =>
    rw [List.head?_eq_none_iff] at hfirst
    rw [hfirst] at hmem
    cases hmem
  | some first =>
    rw [mirrorDispls, firstDispl_eq_head, hfirst] at hret
    simp only at hret
    cases hc : (h first).modes.find? (commonSize h displs) with
    | none =>
      obtain ⟨h2, hthrew, _⟩ := candidates_none displs _ h hc _ hret
      cases hthrew
    | some c0 =>
      obtain ⟨h2, hret2, _, hset⟩ := candidates_found displs _ h c0 hc _ hret
      cases hret2
      have hsz := List.find?_some (hset p hp hpa).2
      intro hnone
      rw [hnone] at hsz
      cases c0 <;> simp [sameSize] at hsz

/-- C18: starting without a primary, a normal return of `activateDispls` leaves the primary
unset or at a display of the list that is `desiredActive`; after a normal return of
`ltrDispls` or of `mirrorDispls` on the same list the primary, if any, has a desired mode,
so that `calculateDpi` does not take its branch for a primary without desired mode. For
displays that were constructed, with no null pointer in their mode lists, and since changed
only through their setters, activation and `ltrDispls` do return normally. -/
theorem primary_is_laid_out (primary : String) (shouldDisableDisplay : String → Bool)
    (displs : List Ptr) (w : World) (hunset : w.desiredPrimary = none) :
    (∀ w1, activateDispls primary shouldDisableDisplay displs w = .returned w1 →
      (w1.desiredPrimary = none ∨
        ∃ p ∈ displs, w1.desiredPrimary = some p ∧ (w1.heap p).desiredActive = true) ∧
      ∀ h2, (ltrDispls displs w1.heap = .defined (.returned h2) ∨
          mirrorDispls displs w1.heap = .defined (.returned h2)) →
        (∀ p, w1.desiredPrimary = some p → (h2 p).desiredMode ≠ none) ∧
          takesNoDesiredMode { w1 with heap := h2 } = false) ∧
    ((∀ p ∈ displs, (w.heap p).Reachable) → (∀ p ∈ displs, none ∉ (w.heap p).modes) →
      ∃ w1 h2, activateDispls primary shouldDisableDisplay displs w = .returned w1 ∧
        ltrDispls displs w1.heap = .defined (.returned h2)) := by
  refine ⟨?_, activate_then_ltr primary shouldDisableDisplay displs w⟩
  intro w1 hret
  obtain ⟨_, hw1⟩ := activateDispls_returned_inv _ _ _ _ _ hret
  subst hw1
  simp only [hunset]
  have hprim : ∀ p, primaryAfter primary shouldDisableDisplay w.heap displs none = some p →
      p ∈ displs ∧ (heapAfterActivate shouldDisableDisplay w.heap displs p).desiredActive
        = true := by
    intro p hp
    obtain ⟨hmem, he⟩ := primaryAfter_mem _ _ _ _ _ hp
    exact ⟨hmem, by simp [heapAfterActivate, hmem, he]⟩
  constructor
  · cases hp : primaryAfter primary shouldDisableDisplay w.heap displs none with
    | none => left; rfl
    | some p => right; exact ⟨p, (hprim p hp).1, rfl, (hprim p hp).2⟩
  · intro h2 hlay
    have hmode : ∀ p, primaryAfter primary shouldDisableDisplay w.heap displs none = some p →
        (h2 p).desiredMode ≠ none := by
      intro p hp
      obtain ⟨hmem, hact⟩ := hprim p hp
      rcases hlay with hltr | hmir
      · obtain ⟨m, ho, _⟩ := ltr_loop_returned_inv displs 0 _ h2 hltr p hmem hact
        obtain ⟨h3, hret3, hmode3⟩ := ltr_loop_returned displs 0 _
          (ltr_loop_returned_inv displs 0 _ h2 hltr)
        have heq : h3 = h2 := by
          have := hret3.symm.trans hltr
          cases this
          rfl
        subst heq
        rw [hmode3 p hmem hact, ho]
        exact Option.some_ne_none m
      · exact mirrorDispls_returned_mode displs _ h2 hmir p hmem hact
    refine ⟨hmode, ?_⟩
    unfold takesNoDesiredMode
    cases hp : primaryAfter primary shouldDisableDisplay w.heap displs none with
    | none => rfl
    | some p =>
      have := hmode p hp
      cases hm : (h2 p).desiredMode with
      | none => exact absurd hm this
      | some m => simp [hm]

/-- The sample displays, activated from the initial state and laid out left to right: the
primary chosen is the display named, and it has a desired mode. -/
theorem primary_is_laid_out_witness :
    ∃ w1 h2, activateDispls "hdmi-1" samplePolicy [0, 1, 2, 3] startWorld = .returned w1 ∧
      ltrDispls [0, 1, 2, 3] w1.heap = .defined (.returned h2) ∧
      w1.desiredPrimary = some 1 ∧
      (h2 1).desiredMode ≠ none ∧
      takesNoDesiredMode { w1 with heap := h2 } = false := by
  have hthm := primary_is_laid_out "hdmi-1" samplePolicy [0, 1, 2, 3] startWorld rfl
  obtain ⟨w1, h2, hact, hltr⟩ := hthm.2 startHeap_reachable startHeap_null_free
  have hprim : w1.desiredPrimary = some 1 := by
    have hstate : w1 = (activateDispls "hdmi-1" samplePolicy [0, 1, 2, 3] startWorld).state := by
      rw [hact]; rfl
    rw [hstate]
    decide
  have hl := (hthm.1 w1 hact).2 h2 (Or.inl hltr)
  exact ⟨w1, h2, hact, hltr, hprim, hl.1 1 hprim, hl.2⟩

/-! ## Ordering: permutation and idempotence -/

theorem front_step_perm (acc : List Ptr) (p : Ptr) (hacc : acc.Nodup) (hp : p ∈ acc) :
    (p :: listRemove acc p).Perm acc ∧ (p :: listRemove acc p).Nodup := by
  have herase : listRemove acc p = acc.erase p := by
    unfold listRemove
    exact (List.Nodup.erase_eq_filter hacc p).symm
  have hperm : (p :: listRemove acc p).Perm acc := by
    rw [herase]
    exact (List.perm_cons_erase hp).symm
  exact ⟨hperm, hperm.nodup_iff.mpr hacc⟩

theorem front_perm (L displs : List Ptr) (hnodup : displs.Nodup) (hL : ∀ p ∈ L, p ∈ displs) :
    (L.foldr (fun preferredDispl displs => preferredDispl :: listRemove displs preferredDispl)
        displs).Perm displs ∧
      (L.foldr (fun preferredDispl displs => preferredDispl :: listRemove displs preferredDispl)
        displs).Nodup := by
  induction L with
  | nil => exact ⟨List.Perm.refl _, hnodup⟩
  | cons a L ih =>
    obtain ⟨hperm, hnd⟩ := ih (fun p hp => hL p (by simp [hp]))
    rw [List.foldr_cons]
    have ha : a ∈ L.foldr
        (fun preferredDispl displs => preferredDispl :: listRemove displs preferredDispl)
        displs := hperm.mem_iff.mpr (hL a (by simp))
    obtain ⟨h1, h2⟩ := front_step_perm _ a hnd ha
    exact ⟨h1.trans hperm, h2⟩

theorem mem_stacked (h : Heap) (displs : List Ptr) (order : List String) (p : Ptr) :
    (p ∈ order.flatMap fun name =>
        displs.filter fun p => decide (strcasecmp name (h p).name = 0)) ↔
      p ∈ displs ∧ ∃ name ∈ order, strcasecmp name (h p).name = 0 := by
  simp only [List.mem_flatMap, List.mem_filter, decide_eq_true_eq]
  constructor
  · rintro ⟨name, hn, hp, hz⟩
    exact ⟨hp, name, hn, hz⟩
  · rintro ⟨hp, name, hn, hz⟩
    exact ⟨name, hn, hp, hz⟩

/-- C19: for a list without a repeated display and any priority list, the list after
`orderDispls` is a permutation of the list before, so of the same length; with an empty
priority list, or one no name of which matches a display, the list is unchanged. -/
theorem orderDispls_perm (h : Heap) (displs : List Ptr) (order : List String)
    (hnodup : displs.Nodup) :
    (orderDispls h displs order).Perm displs ∧
      (orderDispls h displs order).length = displs.length ∧
      (order = [] → orderDispls h displs order = displs) ∧
      ((∀ name ∈ order, ∀ p ∈ displs, strcasecmp name (h p).name ≠ 0) →
        orderDispls h displs order = displs) := by
  have hperm : (orderDispls h displs order).Perm displs := by
    rw [orderDispls_eq_foldr]
    exact (front_perm _ displs hnodup (fun p hp => ((mem_stacked h displs order p).mp hp).1)).1
  refine ⟨hperm, hperm.length_eq, ?_, ?_⟩
  · intro ho
    subst ho
    rfl
  · intro hno
    have hnil : (order.flatMap fun name =>
        displs.filter fun p => decide (strcasecmp name (h p).name = 0)) = [] := by
      rw [List.eq_nil_iff_forall_not_mem]
      intro p hp
      obtain ⟨hpd, name, hn, hz⟩ := (mem_stacked h displs order p).mp hp
      exact hno name hn p hpd hz
    rw [orderDispls_eq_foldr, hnil]
    rfl

/-- Displays that share a name, a priority list that repeats a name and names a missing
display: the result is a rearrangement of the four displays; with no match nothing moves. -/
theorem orderDispls_perm_witness :
    (orderDispls sharedNameHeap [0, 1, 2, 3] ["c", "A", "x", "a"]).Perm [0, 1, 2, 3] ∧
      orderDispls sharedNameHeap [0, 1, 2, 3] ["x", "y"] = [0, 1, 2, 3] :=
  ⟨(orderDispls_perm sharedNameHeap [0, 1, 2, 3] ["c", "A", "x", "a"] (by decide)).1,
    (orderDispls_perm sharedNameHeap [0, 1, 2, 3] ["x", "y"] (by decide)).2.2.2 (by decide)⟩

theorem mem_keepFirst (L : List Ptr) (q : Ptr) : q ∈ keepFirst L ↔ q ∈ L := by
  induction L with
  | nil => simp [keepFirst]
  | cons a L ih =>
    by_cases hqa : q = a
    · simp [keepFirst, hqa]
    · simp [keepFirst, List.mem_filter, hqa, ih]

theorem keepFirst_of_nodup (L : List Ptr) (hL : L.Nodup) : keepFirst L = L := by
  induction L with
  | nil => rfl
  | cons a L ih =>
    have ha : a ∉ L := (List.nodup_cons.mp hL).1
    rw [keepFirst, ih (List.nodup_cons.mp hL).2]
    congr 1
    rw [List.filter_eq_self]
    intro x hx
    have : x ≠ a := fun e => ha (e ▸ hx)
    simpa using this

theorem keepFirst_append (A B : List Ptr) :
    keepFirst (A ++ B) = keepFirst A ++ (keepFirst B).filter (fun p => decide (p ∉ A)) := by
  induction A with
  | nil => simp [keepFirst]
  | cons a A ih =>
    rw [List.cons_append, keepFirst, ih, keepFirst, List.filter_append, List.filter_filter]
    simp only [List.cons_append, List.cons.injEq, true_and, List.append_cancel_left_eq]
    apply List.filter_congr
    intro x _
    by_cases hxa : x = a <;> simp [hxa]

theorem front_general (L displs : List Ptr) :
    L.foldr (fun preferredDispl displs => preferredDispl :: listRemove displs preferredDispl)
        displs =
      keepFirst L ++ displs.filter (fun p => decide (p ∉ L)) := by
  induction L with
  | nil => simp [keepFirst]
  | cons a L ih =>
    rw [List.foldr_cons, ih, keepFirst]
    unfold listRemove
    rw [List.filter_append, List.filter_filter]
    simp only [List.cons_append, List.cons.injEq, true_and, List.append_cancel_left_eq]
    apply List.filter_congr
    intro x _
    by_cases hxa : x = a <;> simp [hxa]

theorem keepFirst_stacked_filter (h : Heap) (displs : List Ptr) (hnodup : displs.Nodup)
    (order : List String) (name : String) (hname : name ∈ order) :
    (keepFirst (order.flatMap fun n =>
        displs.filter fun p => decide (strcasecmp n (h p).name = 0))).filter
        (fun p => decide (strcasecmp name (h p).name = 0)) =
      displs.filter (fun p => decide (strcasecmp name (h p).name = 0)) := by
  induction order with
  | nil => cases hname
  | cons n1 rest ih =>
    rw [List.flatMap_cons, keepFirst_append, keepFirst_of_nodup _ (hnodup.filter _),
      List.filter_append, List.filter_filter, List.filter_filter]
    by_cases hkey : ciKey name = ciKey n1
    · have hsame : ∀ p : Ptr, strcasecmp name (h p).name = 0 ↔ strcasecmp n1 (h p).name = 0 := by
        intro p
        rw [strcasecmp_eq_zero, strcasecmp_eq_zero, hkey]
      have h1 : displs.filter (fun a =>
          decide (strcasecmp name (h a).name = 0) && decide (strcasecmp n1 (h a).name = 0)) =
          displs.filter (fun p => decide (strcasecmp name (h p).name = 0)) := by
        apply List.filter_congr
        intro x _
        by_cases hx : strcasecmp name (h x).name = 0
        · simp [hx, (hsame x).mp hx]
        · simp [hx]
      have h2 : (keepFirst (rest.flatMap fun n =>
          displs.filter fun p => decide (strcasecmp n (h p).name = 0))).filter
          (fun a => decide (strcasecmp name (h a).name = 0) &&
            decide (a ∉ displs.filter fun p => decide (strcasecmp n1 (h p).name = 0))) = [] := by
        rw [List.filter_eq_nil_iff]
        intro x hx
        rw [mem_keepFirst, mem_stacked] at hx
        by_cases hxn : strcasecmp name (h x).name = 0
        · simp [List.mem_filter, hx.1, hxn, (hsame x).mp hxn]
        · simp [hxn]
      rw [h1, h2, List.append_nil]
    · have hne : name ≠ n1 := fun e => hkey (e ▸ rfl)
      have hrest : name ∈ rest := by
        rcases List.mem_cons.mp hname with e | e
        · exact absurd e hne
        · exact e
      have hdisj : ∀ p : Ptr, strcasecmp name (h p).name = 0 →
          ¬ strcasecmp n1 (h p).name = 0 := by
        intro p hp hp1
        rw [strcasecmp_eq_zero] at hp hp1
        exact hkey (hp.trans hp1.symm)
      have h1 : displs.filter (fun a =>
          decide (strcasecmp name (h a).name = 0) && decide (strcasecmp n1 (h a).name = 0)) =
          [] := by
        rw [List.filter_eq_nil_iff]
        intro x _
        by_cases hx : strcasecmp name (h x).name = 0
        · simp [hx, hdisj x hx]
        · simp [hx]
      have h2 : (keepFirst (rest.flatMap fun n =>
          displs.filter fun p => decide (strcasecmp n (h p).name = 0))).filter
          (fun a => decide (strcasecmp name (h a).name = 0) &&
            decide (a ∉ displs.filter fun p => decide (strcasecmp n1 (h p).name = 0))) =
          (keepFirst (rest.flatMap fun n =>
            displs.filter fun p => decide (strcasecmp n (h p).name = 0))).filter
            (fun p => decide (strcasecmp name (h p).name = 0)) := by
        apply List.filter_congr
        intro x _
        by_cases hx : strcasecmp name (h x).name = 0
        · simp [List.mem_filter, hx, hdisj x hx]
        · simp [hx]
      rw [h1, h2, List.nil_append, ih hrest]

theorem orderDispls_closed (h : Heap) (displs : List Ptr) (order : List String) :
    orderDispls h displs order =
      keepFirst (order.flatMap fun n =>
          displs.filter fun p => decide (strcasecmp n (h p).name = 0)) ++
        displs.filter (fun p => decide (p ∉ order.flatMap fun n =>
          displs.filter fun p => decide (strcasecmp n (h p).name = 0))) := by
  rw [orderDispls_eq_foldr, front_general]

/-- C20: for a list without a repeated display and any priority list, also one that repeats
a name or names several displays, ordering the ordered list again with the same priority
list gives the same list. -/
theorem orderDispls_idempotent (h : Heap) (displs : List Ptr) (order : List String)
    (hnodup : displs.Nodup) :
    orderDispls h (orderDispls h displs order) order = orderDispls h displs order := by
  have hfilter : ∀ name ∈ order,
      (orderDispls h displs order).filter (fun p => decide (strcasecmp name (h p).name = 0)) =
        displs.filter (fun p => decide (strcasecmp name (h p).name = 0)) := by
    intro name hname
    rw [orderDispls_closed, List.filter_append,
      keepFirst_stacked_filter h displs hnodup order name hname, List.filter_filter]
    have : displs.filter (fun a => decide (strcasecmp name (h a).name = 0) &&
        decide (a ∉ order.flatMap fun n =>
          displs.filter fun p => decide (strcasecmp n (h p).name = 0))) = [] := by
      rw [List.filter_eq_nil_iff]
      intro x hx
      by_cases hxn : strcasecmp name (h x).name = 0
      · have : x ∈ order.flatMap fun n =>
            displs.filter fun p => decide (strcasecmp n (h p).name = 0) :=
          (mem_stacked h displs order x).mpr ⟨hx, name, hname, hxn⟩
        simp [hxn, this]
      · simp [hxn]
    rw [this, List.append_nil]
  have hstack : (order.flatMap fun n =>
      (orderDispls h displs order).filter fun p => decide (strcasecmp n (h p).name = 0)) =
      (order.flatMap fun n =>
        displs.filter fun p => decide (strcasecmp n (h p).name = 0)) := by
    unfold List.flatMap
    congr 1
    exact List.map_congr_left hfilter
  rw [orderDispls_closed h (orderDispls h displs order) order, hstack]
  conv_rhs => rw [orderDispls_closed]
  congr 1
  rw [orderDispls_closed, List.filter_append, List.filter_filter]
  have h1 : (keepFirst (order.flatMap fun n =>
      displs.filter fun p => decide (strcasecmp n (h p).name = 0))).filter
      (fun p => decide (p ∉ order.flatMap fun n =>
        displs.filter fun p => decide (strcasecmp n (h p).name = 0))) = [] := by
    rw [List.filter_eq_nil_iff]
    intro x hx
    rw [mem_keepFirst] at hx
    simp [hx]
  rw [h1, List.nil_append]
  apply List.filter_congr
  intro x _
  simp

/-- Displays that share a name, a priority list that repeats it: the second ordering changes
nothing, and the list it keeps is C, A, a, B. -/
theorem orderDispls_idempotent_witness :
    orderDispls sharedNameHeap
        (orderDispls sharedNameHeap [0, 1, 2, 3] ["c", "A", "x", "a"]) ["c", "A", "x", "a"] =
      [3, 0, 2, 1] :=
  (orderDispls_idempotent sharedNameHeap [0, 1, 2, 3] ["c", "A", "x", "a"] (by decide)).trans
    (by decide)

end XLayoutDisplays
